import Mathlib

/-!
Verification of the QuakeInsight seismic catalog analysis engine
(src/app/api/analyze/route.ts): a shallow embedding of the clustering,
declustering and Omori-fit algorithms of the analysis route, with proofs
of the specified properties.

Modelling conventions, used throughout:

* JavaScript numbers are modelled as exact rationals.  A comparison of a
  Euclidean distance, `sqrt(d) <= r` in the source, is embedded as
  `d <= r*r`; the two are equivalent for `r >= 0`, and every radius the
  engine uses is nonnegative (eps = 0.5, window formulas are powers of 10).
  A quantity whose produced value (not merely a comparison) involves
  `sqrt` or `log10` is either carried as its radicand or stated over the
  reals.
* JavaScript object identity is modelled by list position: the engines
  operate on indices `Fin n` into the (sorted) event array, exactly as the
  source's `Set`/`includes` tests distinguish objects, and the index is
  mapped back to the event record for the output.
* `Math.random()` draws are injected explicitly as rational parameters,
  one per call site, in call order.
* A JavaScript division whose divisor can be zero (producing NaN or
  Infinity in the source's output record) is modelled with `Option ℚ`:
  `none` stands for a non-finite number.
-/

namespace QuakeInsight

/-- An earthquake catalog entry as built by the analyze route
(`time` epoch ms, coordinates in degrees, `depth` km, `magnitude`). -/
structure SeismicEvent where
  time : ℚ
  latitude : ℚ
  longitude : ℚ
  depth : ℚ
  magnitude : ℚ
deriving DecidableEq, Inhabited

/-- Squared degree-space distance, the radicand of the source's
`Math.sqrt(latDiff * latDiff + lngDiff * lngDiff)`. -/
def dist2 (p q : SeismicEvent) : ℚ :=
  (p.latitude - q.latitude) * (p.latitude - q.latitude) +
    (p.longitude - q.longitude) * (p.longitude - q.longitude)

/-- The neighborhood test `distance(p, q) <= eps` of the source, embedded
squared (equivalent for `eps >= 0`; the engine always uses eps = 0.5). -/
def withinEps (eps : ℚ) (p q : SeismicEvent) : Bool :=
  dist2 p q ≤ eps * eps

/-- JavaScript division where the divisor can be zero: `none` models the
NaN/Infinity the source would produce. -/
def jsDiv (a b : ℚ) : Option ℚ :=
  if b = 0 then none else some (a / b)

/-- The comparator sort `[...data].sort((a, b) => a.time - b.time)`:
a stable sort of a copy of the catalog by ascending time. -/
def sortByTime (data : List SeismicEvent) : List SeismicEvent :=
  data.mergeSort (fun a b => a.time ≤ b.time)

/-- `data` is already in ascending-time order (executable check). -/
def timeSortedB : List SeismicEvent → Bool
  | [] => true
  | [_] => true
  | a :: b :: t => decide (a.time ≤ b.time) && timeSortedB (b :: t)

/-- `data` is already in ascending-time order. -/
@[reducible] def timeSorted (data : List SeismicEvent) : Prop :=
  timeSortedB data = true

section WindowDecluster

variable {n : ℕ}

/-- Inner scan of the NND / Gruenthal / Reasenberg declustering branches
(route.ts 1054-1067, 1086-1099, 1121-1139): walk the later, still
unmarked events and push those admitted by the strategy's window test
into `afts`.  The window test (time/space windows, Omori rate) is
abstracted as `admits mainshockEvent laterEvent`, because its formulas
use real powers of 10; every claim proved here holds for each admission
test. -/
def innerScan (admits : SeismicEvent → SeismicEvent → Bool) (ev : Fin n → SeismicEvent)
    (i : Fin n) : List (Fin n) → List (Fin n) → List (Fin n)
  | [], afts => afts
  | j :: rest, afts =>
    if j ∈ afts then innerScan admits ev i rest afts
    else if admits (ev i) (ev j) then innerScan admits ev i rest (afts ++ [j])
    else innerScan admits ev i rest afts

/-- Outer loop of the window-based declustering strategies
(route.ts 1042-1068 and the two analogous branches): each event not yet
marked aftershock becomes a mainshock and claims later events. -/
def windowLoop (admits : SeismicEvent → SeismicEvent → Bool) (ev : Fin n → SeismicEvent) :
    List (Fin n) → List (Fin n) → List (Fin n) → List (Fin n) × List (Fin n)
  | [], mains, afts => (mains, afts)
  | i :: rest, mains, afts =>
    if i ∈ afts then windowLoop admits ev rest mains afts
    else windowLoop admits ev rest (mains ++ [i]) (innerScan admits ev i rest afts)

/-- A window-based declustering strategy run over the whole sorted catalog,
producing (mainshock indices, aftershock indices). -/
def declusterWindow (admits : SeismicEvent → SeismicEvent → Bool)
    (sorted : List SeismicEvent) : List (Fin sorted.length) × List (Fin sorted.length) :=
  windowLoop admits sorted.get (List.finRange sorted.length) [] []

/-- The mainshock/aftershock index pair is a genuine two-set partition of
the whole catalog: both lists are duplicate-free, they are disjoint, and
together they cover every index. -/
def IsPartitionPair (p : List (Fin n) × List (Fin n)) : Prop :=
  p.1.Nodup ∧ p.2.Nodup ∧ (∀ x ∈ p.1, x ∉ p.2) ∧
    (∀ x : Fin n, x ∈ p.1 ∨ x ∈ p.2)

lemma innerScan_spec (admits : SeismicEvent → SeismicEvent → Bool) (ev : Fin n → SeismicEvent)
    (i : Fin n) :
    ∀ (later afts : List (Fin n)), afts.Nodup →
      (innerScan admits ev i later afts).Nodup ∧
      (∀ x ∈ afts, x ∈ innerScan admits ev i later afts) ∧
      (∀ x ∈ innerScan admits ev i later afts, x ∈ afts ∨ x ∈ later) := by
  intro later
  induction later with
  | nil => intro afts h; exact ⟨h, fun x hx => hx, fun x hx => Or.inl hx⟩
  | cons j rest ih =>
    intro afts h
    by_cases hj : j ∈ afts
    · have := ih afts h
      simp only [innerScan, if_pos hj]
      exact ⟨this.1, this.2.1, fun x hx => (this.2.2 x hx).imp id (List.mem_cons_of_mem j)⟩
    · by_cases hadm : admits (ev i) (ev j)
      · have hnd : (afts ++ [j]).Nodup := by
          simp [List.nodup_append, h, hj]
        have := ih (afts ++ [j]) hnd
        simp only [innerScan, if_neg hj, if_pos hadm]
        refine ⟨this.1, ?_, ?_⟩
        · intro x hx
          exact this.2.1 x (List.mem_append_left _ hx)
        · intro x hx
          rcases this.2.2 x hx with hx1 | hx2
          · rcases List.mem_append.mp hx1 with hx1 | hx1
            · exact Or.inl hx1
            · simp only [List.mem_singleton] at hx1
              exact Or.inr (hx1 ▸ List.mem_cons_self j rest)
          · exact Or.inr (List.mem_cons_of_mem j hx2)
      · have := ih afts h
        simp only [innerScan, if_neg hj, if_neg hadm]
        exact ⟨this.1, this.2.1, fun x hx => (this.2.2 x hx).imp id (List.mem_cons_of_mem j)⟩

lemma windowLoop_spec (admits : SeismicEvent → SeismicEvent → Bool) (ev : Fin n → SeismicEvent) :
    ∀ (rem mains afts : List (Fin n)),
      rem.Nodup → mains.Nodup → afts.Nodup →
      (∀ x ∈ mains, x ∉ afts) → (∀ x ∈ mains, x ∉ rem) →
      ∀ r, r = windowLoop admits ev rem mains afts →
        r.1.Nodup ∧ r.2.Nodup ∧ (∀ x ∈ r.1, x ∉ r.2) ∧
        (∀ x, (x ∈ r.1 ∨ x ∈ r.2) ↔ (x ∈ mains ∨ x ∈ afts ∨ x ∈ rem)) ∧
        (∀ x ∈ mains, x ∈ r.1) := by
  intro rem
  induction rem with
  | nil =>
    intro mains afts _ hm ha hdisj _ r hr
    subst hr
    refine ⟨hm, ha, hdisj, ?_, fun x hx => hx⟩
    intro x; simp [windowLoop]
  | cons i rest ih =>
    intro mains afts hrem hm ha hdisj hmr r hr
    subst hr
    have hrest : rest.Nodup := (List.nodup_cons.mp hrem).2
    have hirest : i ∉ rest := (List.nodup_cons.mp hrem).1
    by_cases hi : i ∈ afts
    · simp only [windowLoop, if_pos hi]
      have := ih mains afts hrest hm ha hdisj
        (fun x hx => fun hr => hmr x hx (List.mem_cons_of_mem i hr)) _ rfl
      refine ⟨this.1, this.2.1, this.2.2.1, ?_, this.2.2.2.2⟩
      intro x
      rw [this.2.2.2.1 x]
      constructor
      · rintro (h | h | h)
        · exact Or.inl h
        · exact Or.inr (Or.inl h)
        · exact Or.inr (Or.inr (List.mem_cons_of_mem i h))
      · rintro (h | h | h)
        · exact Or.inl h
        · exact Or.inr (Or.inl h)
        · rcases List.mem_cons.mp h with rfl | h
          · exact Or.inr (Or.inl hi)
          · exact Or.inr (Or.inr h)
    · simp only [windowLoop, if_neg hi]
      have hiscan := innerScan_spec admits ev i rest afts ha
      have him : i ∉ mains := fun hx => hmr i hx (List.mem_cons_self i rest)
      have hmains : (mains ++ [i]).Nodup := by
        simp [List.nodup_append, hm, him]
      have hdisj2 : ∀ x ∈ mains ++ [i], x ∉ innerScan admits ev i rest afts := by
        intro x hx hmem
        rcases hiscan.2.2 x hmem with hxa | hxr
        · rcases List.mem_append.mp hx with hx | hx
          · exact hdisj x hx hxa
          · simp only [List.mem_singleton] at hx
            exact hi (hx ▸ hxa)
        · rcases List.mem_append.mp hx with hx | hx
          · exact hmr x hx (List.mem_cons_of_mem i hxr)
          · simp only [List.mem_singleton] at hx
            exact hirest (hx ▸ hxr)
      have hmr2 : ∀ x ∈ mains ++ [i], x ∉ rest := by
        intro x hx
        rcases List.mem_append.mp hx with hx | hx
        · exact fun hr => hmr x hx (List.mem_cons_of_mem i hr)
        · simp only [List.mem_singleton] at hx
          exact hx ▸ hirest
      have := ih (mains ++ [i]) (innerScan admits ev i rest afts) hrest hmains hiscan.1
        hdisj2 hmr2 _ rfl
      refine ⟨this.1, this.2.1, this.2.2.1, ?_, ?_⟩
      · intro x
        rw [this.2.2.2.1 x]
        constructor
        · rintro (h | h | h)
          · rcases List.mem_append.mp h with h | h
            · exact Or.inl h
            · simp only [List.mem_singleton] at h
              exact Or.inr (Or.inr (h ▸ List.mem_cons_self i rest))
          · rcases hiscan.2.2 x h with h | h
            · exact Or.inr (Or.inl h)
            · exact Or.inr (Or.inr (List.mem_cons_of_mem i h))
          · exact Or.inr (Or.inr (List.mem_cons_of_mem i h))
        · rintro (h | h | h)
          · exact Or.inl (List.mem_append_left _ h)
          · exact Or.inr (Or.inl (hiscan.2.1 x h))
          · rcases List.mem_cons.mp h with rfl | h
            · exact Or.inl (List.mem_append_right _ (List.mem_singleton_self x))
            · exact Or.inr (Or.inr h)
      · intro x hx
        exact this.2.2.2.2 x (List.mem_append_left _ hx)

lemma declusterWindow_partition (admits : SeismicEvent → SeismicEvent → Bool)
    (sorted : List SeismicEvent) : IsPartitionPair (declusterWindow admits sorted) := by
  have := windowLoop_spec admits sorted.get (List.finRange sorted.length) [] []
    (List.nodup_finRange _) List.nodup_nil List.nodup_nil
    (by simp) (by simp) _ rfl
  refine ⟨this.1, this.2.1, this.2.2.1, ?_⟩
  intro x
  exact (this.2.2.2.1 x).mpr (Or.inr (Or.inr (List.mem_finRange x)))

/-- Window declustering never leaves the mainshock list empty when the
catalog is nonempty: the first event (never pre-marked) always becomes a
mainshock. -/
lemma windowLoop_mains_ne_nil (admits : SeismicEvent → SeismicEvent → Bool)
    (ev : Fin n → SeismicEvent) :
    ∀ (rem mains afts : List (Fin n)), (mains ≠ [] ∨ (rem ≠ [] ∧ afts = [])) →
      (windowLoop admits ev rem mains afts).1 ≠ [] := by
  intro rem
  induction rem with
  | nil =>
    intro mains afts h
    rcases h with h | ⟨h, _⟩
    · exact h
    · exact absurd rfl h
  | cons i rest ih =>
    intro mains afts h
    by_cases hi : i ∈ afts
    · rcases h with h | ⟨_, ha⟩
      · simp only [windowLoop, if_pos hi]
        exact ih mains afts (Or.inl h)
      · exact absurd (ha ▸ hi) (List.not_mem_nil i)
    · simp only [windowLoop, if_neg hi]
      exact ih _ _ (Or.inl (by simp))

lemma declusterWindow_mains_ne_nil (admits : SeismicEvent → SeismicEvent → Bool)
    (sorted : List SeismicEvent) (h : sorted ≠ []) :
    (declusterWindow admits sorted).1 ≠ [] := by
  unfold declusterWindow
  refine windowLoop_mains_ne_nil admits sorted.get _ [] [] (Or.inr ⟨?_, rfl⟩)
  intro h0
  have := List.length_finRange sorted.length
  rw [h0] at this
  exact h (List.length_eq_zero.mp this.symm)

end WindowDecluster

section Dbscan

variable {n : ℕ}

/-- `getNeighbors(point, points)` (route.ts 725-727 and 988-990): the
eps-neighborhood by linear scan over the whole array, here abstracted over
the Boolean neighbor test (instantiated with `withinEps` below). -/
def nbrs (isNbr : Fin n → Fin n → Bool) (i : Fin n) : List (Fin n) :=
  (List.finRange n).filter (fun j => isNbr i j)

/-- The source's `while (queue.length > 0) { current = queue.shift();
if visited continue ... }` head-skipping: the first queue entry that is
not yet visited, together with the queue left after it. -/
def nextUnvisited : List (Fin n) → Finset (Fin n) → Option (Fin n × List (Fin n))
  | [], _ => none
  | cur :: rest, visited =>
    if cur ∈ visited then nextUnvisited rest visited else some (cur, rest)

/-- Breadth-first density-reachability expansion of one DBSCAN cluster
(route.ts 751-764 and 1014-1027).  Each step visits exactly one new
point, so the recursion is driven by a fuel counter; `expand` below
supplies fuel `n + 1`, which by `expandGo_fuel_stable` is never the
reason the loop stops. -/
def expandGo (isNbr : Fin n → Fin n → Bool) (minPts : ℕ) :
    ℕ → List (Fin n) → Finset (Fin n) → List (Fin n) → Finset (Fin n) × List (Fin n)
  | 0, _, visited, cluster => (visited, cluster)
  | fuel + 1, queue, visited, cluster =>
    match nextUnvisited queue visited with
    | none => (visited, cluster)
    | some (cur, rest) =>
      let visited2 := insert cur visited
      let curNbrs := nbrs isNbr cur
      let pushed := if minPts ≤ curNbrs.length
        then curNbrs.filter (fun j => decide (j ∉ visited2)) else []
      expandGo isNbr minPts fuel (rest ++ pushed) visited2 (cluster ++ [cur])

/-- Cluster expansion with always-sufficient fuel. -/
def expand (isNbr : Fin n → Fin n → Bool) (minPts : ℕ) (queue : List (Fin n))
    (visited : Finset (Fin n)) (cluster : List (Fin n)) : Finset (Fin n) × List (Fin n) :=
  expandGo isNbr minPts (n + 1) queue visited cluster

lemma nextUnvisited_spec :
    ∀ (q : List (Fin n)) (V : Finset (Fin n)) (cur : Fin n) (rest : List (Fin n)),
      nextUnvisited q V = some (cur, rest) →
      cur ∉ V ∧ cur ∈ q ∧ ∀ x ∈ rest, x ∈ q := by
  intro q
  induction q with
  | nil => intro V cur rest h; simp [nextUnvisited] at h
  | cons a as ih =>
    intro V cur rest h
    by_cases ha : a ∈ V
    · simp only [nextUnvisited, if_pos ha] at h
      obtain ⟨h1, h2, h3⟩ := ih V cur rest h
      exact ⟨h1, List.mem_cons_of_mem a h2, fun x hx => List.mem_cons_of_mem a (h3 x hx)⟩
    · simp only [nextUnvisited, if_neg ha, Option.some.injEq, Prod.mk.injEq] at h
      obtain ⟨rfl, rfl⟩ := h
      exact ⟨ha, List.mem_cons_self _ _, fun x hx => List.mem_cons_of_mem _ hx⟩

/-- Any fuel of at least `n + 1 - visited.card` produces the same result:
the fuel bound in `expand` is semantically inert. -/
lemma expandGo_fuel_stable (isNbr : Fin n → Fin n → Bool) (minPts : ℕ) :
    ∀ (fuel1 fuel2 : ℕ) (queue : List (Fin n)) (visited : Finset (Fin n))
      (cluster : List (Fin n)),
      n + 1 - visited.card ≤ fuel1 → n + 1 - visited.card ≤ fuel2 →
      expandGo isNbr minPts fuel1 queue visited cluster =
        expandGo isNbr minPts fuel2 queue visited cluster := by
  intro fuel1
  induction fuel1 with
  | zero =>
    intro fuel2 queue visited cluster h1 _
    have hc : visited.card ≤ n := le_of_le_of_eq (Finset.card_le_univ visited) (by simp)
    omega
  | succ f ih =>
    intro fuel2 queue visited cluster h1 h2
    have hc : visited.card ≤ n := le_of_le_of_eq (Finset.card_le_univ visited) (by simp)
    cases fuel2 with
    | zero => omega
    | succ f2 =>
      simp only [expandGo]
      cases hnv : nextUnvisited queue visited with
      | none => rfl
      | some p =>
        obtain ⟨cur, rest⟩ := p
        have hcur := (nextUnvisited_spec queue visited cur rest hnv).1
        have hcard : (insert cur visited).card = visited.card + 1 :=
          Finset.card_insert_of_not_mem hcur
        exact ih f2 _ _ _ (by omega) (by omega)

lemma expandGo_spec (isNbr : Fin n → Fin n → Bool) (minPts : ℕ) :
    ∀ (fuel : ℕ) (queue : List (Fin n)) (visited : Finset (Fin n)) (cluster : List (Fin n)),
      cluster.Nodup → (∀ x ∈ cluster, x ∈ visited) →
      ∀ r, r = expandGo isNbr minPts fuel queue visited cluster →
        r.2.Nodup ∧ (∀ x ∈ r.2, x ∈ r.1) ∧ visited ⊆ r.1 ∧
        (∀ x ∈ r.1, x ∈ visited ∨ x ∈ r.2) ∧ (∀ x ∈ cluster, x ∈ r.2) ∧
        (∀ x ∈ r.2, x ∈ cluster ∨ x ∉ visited) ∧
        (cluster ≠ [] → r.2.head? = cluster.head?) := by
  intro fuel
  induction fuel with
  | zero =>
    intro queue visited cluster hnd hsub r hr
    subst hr
    exact ⟨hnd, hsub, fun x hx => hx, fun x hx => Or.inl hx, fun x hx => hx,
      fun x hx => Or.inl hx, fun _ => rfl⟩
  | succ f ih =>
    intro queue visited cluster hnd hsub r hr
    subst hr
    simp only [expandGo]
    cases hnv : nextUnvisited queue visited with
    | none =>
      exact ⟨hnd, hsub, fun x hx => hx, fun x hx => Or.inl hx, fun x hx => hx,
        fun x hx => Or.inl hx, fun _ => rfl⟩
    | some p =>
      obtain ⟨cur, rest⟩ := p
      have hcur := (nextUnvisited_spec queue visited cur rest hnv).1
      have hcm : cur ∉ cluster := fun hx => hcur (hsub cur hx)
      have hcnd : (cluster ++ [cur]).Nodup := by
        simp [List.nodup_append, hnd, hcm]
      have hcsub : ∀ x ∈ cluster ++ [cur], x ∈ insert cur visited := by
        intro x hx
        rcases List.mem_append.mp hx with hx | hx
        · exact Finset.mem_insert_of_mem (hsub x hx)
        · simp only [List.mem_singleton] at hx
          exact hx ▸ Finset.mem_insert_self cur visited
      have H := ih
        (rest ++ (if minPts ≤ (nbrs isNbr cur).length
          then (nbrs isNbr cur).filter (fun j => decide (j ∉ insert cur visited)) else []))
        (insert cur visited) (cluster ++ [cur]) hcnd hcsub _ rfl
      refine ⟨H.1, H.2.1, ?_, ?_, ?_, ?_, ?_⟩
      · exact fun x hx => H.2.2.1 (Finset.mem_insert_of_mem hx)
      · intro x hx
        rcases H.2.2.2.1 x hx with hx2 | hx2
        · rcases Finset.mem_insert.mp hx2 with rfl | hx2
          · exact Or.inr (H.2.2.2.2.1 x (List.mem_append_right _ (List.mem_singleton_self x)))
          · exact Or.inl hx2
        · exact Or.inr hx2
      · exact fun x hx => H.2.2.2.2.1 x (List.mem_append_left _ hx)
      · intro x hx
        rcases H.2.2.2.2.2.1 x hx with hx2 | hx2
        · rcases List.mem_append.mp hx2 with hx2 | hx2
          · exact Or.inl hx2
          · simp only [List.mem_singleton] at hx2
            exact Or.inr (hx2 ▸ hcur)
        · exact Or.inr (fun hv => hx2 (Finset.mem_insert_of_mem hv))
      · intro hne
        have := H.2.2.2.2.2.2 (by simp)
        rw [this]
        cases cluster with
        | nil => exact absurd rfl hne
        | cons a t => rfl

lemma expand_spec (isNbr : Fin n → Fin n → Bool) (minPts : ℕ)
    (queue : List (Fin n)) (visited : Finset (Fin n)) (cluster : List (Fin n))
    (hnd : cluster.Nodup) (hsub : ∀ x ∈ cluster, x ∈ visited) :
    ∀ r, r = expand isNbr minPts queue visited cluster →
      r.2.Nodup ∧ (∀ x ∈ r.2, x ∈ r.1) ∧ visited ⊆ r.1 ∧
      (∀ x ∈ r.1, x ∈ visited ∨ x ∈ r.2) ∧ (∀ x ∈ cluster, x ∈ r.2) ∧
      (∀ x ∈ r.2, x ∈ cluster ∨ x ∉ visited) ∧
      (cluster ≠ [] → r.2.head? = cluster.head?) :=
  expandGo_spec isNbr minPts (n + 1) queue visited cluster hnd hsub

/-- Outer DBSCAN scan (route.ts 735-765 and 997-1028): unvisited points
with a thin neighborhood become noise, the rest seed clusters that are
expanded breadth-first. -/
def dbscanLoop (isNbr : Fin n → Fin n → Bool) (minPts : ℕ) :
    List (Fin n) → Finset (Fin n) → List (List (Fin n)) → List (Fin n) →
    List (List (Fin n)) × List (Fin n)
  | [], _, cls, noi => (cls, noi)
  | i :: rest, visited, cls, noi =>
    if i ∈ visited then dbscanLoop isNbr minPts rest visited cls noi
    else
      let visited2 := insert i visited
      let nb := nbrs isNbr i
      if nb.length < minPts then dbscanLoop isNbr minPts rest visited2 cls (noi ++ [i])
      else
        let ec := expand isNbr minPts nb visited2 [i]
        dbscanLoop isNbr minPts rest ec.1 (cls ++ [ec.2]) noi

/-- One full DBSCAN pass over all points: (clusters, noise). -/
def dbscanRun (isNbr : Fin n → Fin n → Bool) (minPts : ℕ) :
    List (List (Fin n)) × List (Fin n) :=
  dbscanLoop isNbr minPts (List.finRange n) ∅ [] []

lemma dbscanLoop_spec (isNbr : Fin n → Fin n → Bool) (minPts : ℕ) :
    ∀ (rem : List (Fin n)) (visited : Finset (Fin n)) (cls : List (List (Fin n)))
      (noi : List (Fin n)),
      (∀ c ∈ cls, c.Nodup) →
      (∀ c ∈ cls, ∃ j t, c = j :: t ∧ minPts ≤ (nbrs isNbr j).length) →
      noi.Nodup →
      (∀ x, x ∈ visited ↔ (x ∈ noi ∨ ∃ c ∈ cls, x ∈ c)) →
      List.Pairwise (fun c d => ∀ x ∈ c, x ∉ d) cls →
      (∀ c ∈ cls, ∀ x ∈ c, x ∉ noi) →
      ∀ r, r = dbscanLoop isNbr minPts rem visited cls noi →
        (∀ c ∈ r.1, c.Nodup) ∧
        (∀ c ∈ r.1, ∃ j t, c = j :: t ∧ minPts ≤ (nbrs isNbr j).length) ∧
        r.2.Nodup ∧
        List.Pairwise (fun c d => ∀ x ∈ c, x ∉ d) r.1 ∧
        (∀ c ∈ r.1, ∀ x ∈ c, x ∉ r.2) ∧
        (∀ x, (x ∈ visited ∨ x ∈ rem) → (x ∈ r.2 ∨ ∃ c ∈ r.1, x ∈ c)) := by
  intro rem
  induction rem with
  | nil =>
    intro visited cls noi h1 h2 h3 h4 h5 h6 r hr
    subst hr
    refine ⟨h1, h2, h3, h5, h6, ?_⟩
    intro x hx
    rcases hx with hx | hx
    · exact (h4 x).mp hx
    · exact absurd hx (List.not_mem_nil x)
  | cons i rest ih =>
    intro visited cls noi h1 h2 h3 h4 h5 h6 r hr
    subst hr
    by_cases hi : i ∈ visited
    · simp only [dbscanLoop, if_pos hi]
      have H := ih visited cls noi h1 h2 h3 h4 h5 h6 _ rfl
      refine ⟨H.1, H.2.1, H.2.2.1, H.2.2.2.1, H.2.2.2.2.1, ?_⟩
      intro x hx
      rcases hx with hx | hx
      · exact H.2.2.2.2.2 x (Or.inl hx)
      · rcases List.mem_cons.mp hx with rfl | hx
        · exact H.2.2.2.2.2 x (Or.inl hi)
        · exact H.2.2.2.2.2 x (Or.inr hx)
    · simp only [dbscanLoop, if_neg hi]
      by_cases hnb : (nbrs isNbr i).length < minPts
      · -- noise branch
        simp only [if_pos hnb]
        have hno : i ∉ noi := fun hx => hi ((h4 i).mpr (Or.inl hx))
        have h3b : (noi ++ [i]).Nodup := by simp [List.nodup_append, h3, hno]
        have h4b : ∀ x, x ∈ insert i visited ↔ (x ∈ noi ++ [i] ∨ ∃ c ∈ cls, x ∈ c) := by
          intro x
          rw [Finset.mem_insert, h4 x]
          constructor
          · rintro (rfl | hx | hx)
            · exact Or.inl (List.mem_append_right _ (List.mem_singleton_self x))
            · exact Or.inl (List.mem_append_left _ hx)
            · exact Or.inr hx
          · rintro (hx | hx)
            · rcases List.mem_append.mp hx with hx | hx
              · exact Or.inr (Or.inl hx)
              · simp only [List.mem_singleton] at hx
                exact Or.inl hx
            · exact Or.inr (Or.inr hx)
        have h6b : ∀ c ∈ cls, ∀ x ∈ c, x ∉ noi ++ [i] := by
          intro c hc x hx hmem
          rcases List.mem_append.mp hmem with hmem | hmem
          · exact h6 c hc x hx hmem
          · simp only [List.mem_singleton] at hmem
            exact hi (hmem ▸ (h4 x).mpr (Or.inr ⟨c, hc, hx⟩))
        have H := ih (insert i visited) cls (noi ++ [i]) h1 h2 h3b h4b h5 h6b _ rfl
        refine ⟨H.1, H.2.1, H.2.2.1, H.2.2.2.1, H.2.2.2.2.1, ?_⟩
        intro x hx
        rcases hx with hx | hx
        · exact H.2.2.2.2.2 x (Or.inl (Finset.mem_insert_of_mem hx))
        · rcases List.mem_cons.mp hx with rfl | hx
          · exact H.2.2.2.2.2 x (Or.inl (Finset.mem_insert_self x visited))
          · exact H.2.2.2.2.2 x (Or.inr hx)
      · -- cluster branch
        simp only [if_neg hnb]
        have hseed : ([i] : List (Fin n)).Nodup := by simp
        have hseedsub : ∀ x ∈ ([i] : List (Fin n)), x ∈ insert i visited := by
          intro x hx
          simp only [List.mem_singleton] at hx
          exact hx ▸ Finset.mem_insert_self i visited
        have E := expand_spec isNbr minPts (nbrs isNbr i) (insert i visited) [i]
          hseed hseedsub _ rfl
        set ec := expand isNbr minPts (nbrs isNbr i) (insert i visited) [i] with hec
        -- the fresh cluster
        have hiec : i ∈ ec.2 := E.2.2.2.2.1 i (List.mem_singleton_self i)
        have hecnew : ∀ x ∈ ec.2, x = i ∨ x ∉ insert i visited := by
          intro x hx
          rcases E.2.2.2.2.2.1 x hx with hx2 | hx2
          · simp only [List.mem_singleton] at hx2
            exact Or.inl hx2
          · exact Or.inr hx2
        have hecnotvis : ∀ x ∈ ec.2, x ∉ visited := by
          intro x hx
          rcases hecnew x hx with rfl | hx2
          · exact hi
          · exact fun hv => hx2 (Finset.mem_insert_of_mem hv)
        have hhead : ec.2.head? = some i := by
          have := E.2.2.2.2.2.2 (by simp)
          simpa using this
        have hdec : ∃ j t, ec.2 = j :: t ∧ minPts ≤ (nbrs isNbr j).length := by
          cases hc2 : ec.2 with
          | nil => rw [hc2] at hhead; simp at hhead
          | cons a t =>
            rw [hc2] at hhead
            simp only [List.head?_cons, Option.some.injEq] at hhead
            exact ⟨a, t, by rw [hhead], by rw [hhead]; omega⟩
        have h1b : ∀ c ∈ cls ++ [ec.2], c.Nodup := by
          intro c hc
          rcases List.mem_append.mp hc with hc | hc
          · exact h1 c hc
          · simp only [List.mem_singleton] at hc
            exact hc ▸ E.1
        have h2b : ∀ c ∈ cls ++ [ec.2], ∃ j t, c = j :: t ∧ minPts ≤ (nbrs isNbr j).length := by
          intro c hc
          rcases List.mem_append.mp hc with hc | hc
          · exact h2 c hc
          · simp only [List.mem_singleton] at hc
            exact hc ▸ hdec
        have h4b : ∀ x, x ∈ ec.1 ↔ (x ∈ noi ∨ ∃ c ∈ cls ++ [ec.2], x ∈ c) := by
          intro x
          constructor
          · intro hx
            rcases E.2.2.2.1 x hx with hx2 | hx2
            · rcases Finset.mem_insert.mp hx2 with rfl | hx2
              · exact Or.inr ⟨ec.2, List.mem_append_right _ (List.mem_singleton_self _), hiec⟩
              · rcases (h4 x).mp hx2 with hx3 | ⟨c, hc, hxc⟩
                · exact Or.inl hx3
                · exact Or.inr ⟨c, List.mem_append_left _ hc, hxc⟩
            · exact Or.inr ⟨ec.2, List.mem_append_right _ (List.mem_singleton_self _), hx2⟩
          · intro hx
            have hvsub : visited ⊆ ec.1 :=
              fun y hy => E.2.2.1 (Finset.mem_insert_of_mem hy)
            rcases hx with hx | ⟨c, hc, hxc⟩
            · exact hvsub ((h4 x).mpr (Or.inl hx))
            · rcases List.mem_append.mp hc with hc | hc
              · exact hvsub ((h4 x).mpr (Or.inr ⟨c, hc, hxc⟩))
              · simp only [List.mem_singleton] at hc
                exact E.2.1 x (hc ▸ hxc)
        have h5b : List.Pairwise (fun c d => ∀ x ∈ c, x ∉ d) (cls ++ [ec.2]) := by
          rw [List.pairwise_append]
          refine ⟨h5, List.pairwise_singleton _ _, ?_⟩
          intro c hc d hd x hxc hxd
          simp only [List.mem_singleton] at hd
          subst hd
          exact hecnotvis x hxd ((h4 x).mpr (Or.inr ⟨c, hc, hxc⟩))
        have h6b : ∀ c ∈ cls ++ [ec.2], ∀ x ∈ c, x ∉ noi := by
          intro c hc x hx hmem
          rcases List.mem_append.mp hc with hc | hc
          · exact h6 c hc x hx hmem
          · simp only [List.mem_singleton] at hc
            exact hecnotvis x (hc ▸ hx) ((h4 x).mpr (Or.inl hmem))
        have H := ih ec.1 (cls ++ [ec.2]) noi h1b h2b h3 h4b h5b h6b _ rfl
        refine ⟨H.1, H.2.1, H.2.2.1, H.2.2.2.1, H.2.2.2.2.1, ?_⟩
        intro x hx
        have hvsub : visited ⊆ ec.1 :=
          fun y hy => E.2.2.1 (Finset.mem_insert_of_mem hy)
        rcases hx with hx | hx
        · exact H.2.2.2.2.2 x (Or.inl (hvsub hx))
        · rcases List.mem_cons.mp hx with rfl | hx
          · exact H.2.2.2.2.2 x (Or.inl (E.2.2.1 (Finset.mem_insert_self x visited)))
          · exact H.2.2.2.2.2 x (Or.inr hx)

end Dbscan

section MaxSelection

/-- The `reduce((max, event) => event.magnitude > max.magnitude ? event : max, init)`
fold, generic in the measured value. -/
def foldMax {α : Type} (g : α → ℚ) (init : α) (l : List α) : α :=
  l.foldl (fun mx x => if g mx < g x then x else mx) init

lemma foldMax_spec {α : Type} (g : α → ℚ) :
    ∀ (l : List α) (a : α),
      foldMax g a l ∈ a :: l ∧ g a ≤ g (foldMax g a l) ∧
        ∀ x ∈ l, g x ≤ g (foldMax g a l) := by
  intro l
  induction l with
  | nil =>
    intro a
    exact ⟨List.mem_singleton_self a, le_refl _, fun x hx => absurd hx (List.not_mem_nil x)⟩
  | cons x t ih =>
    intro a
    by_cases hc : g a < g x
    · have step : foldMax g a (x :: t) = foldMax g x t := by
        show foldMax g (if g a < g x then x else a) t = foldMax g x t
        rw [if_pos hc]
      obtain ⟨hmem, hinit, hall⟩ := ih x
      rw [step]
      refine ⟨?_, le_trans (le_of_lt hc) hinit, ?_⟩
      · rcases List.mem_cons.mp hmem with h | h
        · rw [h]; exact List.mem_cons_of_mem a (List.mem_cons_self x t)
        · exact List.mem_cons_of_mem a (List.mem_cons_of_mem x h)
      · intro y hy
        rcases List.mem_cons.mp hy with rfl | hy
        · exact hinit
        · exact hall y hy
    · have step : foldMax g a (x :: t) = foldMax g a t := by
        show foldMax g (if g a < g x then x else a) t = foldMax g a t
        rw [if_neg hc]
      obtain ⟨hmem, hinit, hall⟩ := ih a
      rw [step]
      refine ⟨?_, hinit, ?_⟩
      · rcases List.mem_cons.mp hmem with h | h
        · rw [h]; exact List.mem_cons_self a (x :: t)
        · exact List.mem_cons_of_mem a (List.mem_cons_of_mem x h)
      · intro y hy
        rcases List.mem_cons.mp hy with rfl | hy
        · exact le_trans (le_of_not_lt hc) hinit
        · exact hall y hy

/-- `cluster.reduce((max, event) => event.magnitude > max.magnitude ? event : max,
cluster[0])` over a list of catalog indices (route.ts 1032); `none` for the
empty list, on which the source would crash (clusters are never empty). -/
def reduceMaxMag {n : ℕ} (ev : Fin n → SeismicEvent) : List (Fin n) → Option (Fin n)
  | [] => none
  | j :: t => some (foldMax (fun x => (ev x).magnitude) j (j :: t))

/-- The same reduce over a list of events (route.ts 1181-1184, the
forced-fallback mainshock). -/
def reduceMaxEvent : List SeismicEvent → Option SeismicEvent
  | [] => none
  | e :: t => some (foldMax (fun x => x.magnitude) e (e :: t))

lemma reduceMaxEvent_isSome (l : List SeismicEvent) (h : l ≠ []) :
    ∃ m, reduceMaxEvent l = some m := by
  cases l with
  | nil => exact absurd rfl h
  | cons e t => exact ⟨_, rfl⟩

lemma reduceMaxMag_mem {n : ℕ} (ev : Fin n → SeismicEvent) (c : List (Fin n)) (m : Fin n)
    (h : reduceMaxMag ev c = some m) : m ∈ c := by
  cases c with
  | nil => simp [reduceMaxMag] at h
  | cons j t =>
    simp only [reduceMaxMag, Option.some.injEq] at h
    have := (foldMax_spec (fun x => (ev x).magnitude) (j :: t) j).1
    rw [h] at this
    rcases List.mem_cons.mp this with rfl | hmem
    · exact List.mem_cons_self _ _
    · exact hmem

lemma reduceMaxMag_isSome {n : ℕ} (ev : Fin n → SeismicEvent) (c : List (Fin n))
    (h : c ≠ []) : ∃ m, reduceMaxMag ev c = some m := by
  cases c with
  | nil => exact absurd rfl h
  | cons j t => exact ⟨_, rfl⟩

end MaxSelection

section DeclusterDbscan

/-- Aftershocks drawn from one DBSCAN cluster: all members except the
selected mainshock (`cluster.filter((event) => event !== mainshock)`,
route.ts 1035). -/
def clusterAfts {n : ℕ} (ev : Fin n → SeismicEvent) (c : List (Fin n)) : List (Fin n) :=
  match reduceMaxMag ev c with
  | none => []
  | some m => c.filter (fun x => decide (x ≠ m))

/-- The concrete neighbor test of the declustering DBSCAN branch
(route.ts 977-985): eps = 0.5 degrees on the sorted catalog. -/
def dbscanNbr (sorted : List SeismicEvent) : Fin sorted.length → Fin sorted.length → Bool :=
  fun i j => withinEps (1/2) (sorted.get i) (sorted.get j)

/-- DBSCAN-based declustering (route.ts 975-1037): run density clustering
with eps = 0.5, minPts = 3; noise events become mainshocks during the scan,
then each cluster contributes its maximum-magnitude member as a mainshock
and the rest as aftershocks. -/
def declusterDbscan (sorted : List SeismicEvent) :
    List (Fin sorted.length) × List (Fin sorted.length) :=
  ((dbscanRun (dbscanNbr sorted) 3).2 ++
      (dbscanRun (dbscanNbr sorted) 3).1.filterMap (reduceMaxMag sorted.get),
    (dbscanRun (dbscanNbr sorted) 3).1.flatMap (clusterAfts sorted.get))

lemma clusterAfts_subset {n : ℕ} (ev : Fin n → SeismicEvent) (c : List (Fin n)) :
    ∀ x ∈ clusterAfts ev c, x ∈ c := by
  intro x hx
  unfold clusterAfts at hx
  cases h : reduceMaxMag ev c with
  | none => rw [h] at hx; exact absurd hx (List.not_mem_nil x)
  | some m => rw [h] at hx; exact List.mem_of_mem_filter hx

lemma pairwise_disjoint_symm {n : ℕ} :
    Symmetric (fun (c d : List (Fin n)) => ∀ x ∈ c, x ∉ d) := by
  intro c d h x hx hxc
  exact h x hxc hx

lemma declusterDbscan_partition (sorted : List SeismicEvent) :
    IsPartitionPair (declusterDbscan sorted) := by
  classical
  have D := dbscanLoop_spec (dbscanNbr sorted) 3 (List.finRange sorted.length) ∅ [] []
    (by simp) (by simp) List.nodup_nil (by simp) List.Pairwise.nil (by simp) _ rfl
  obtain ⟨hclsNd, hseeds, hnoiNd, hclsPw, hclsNoi, hcover⟩ := D
  set ev := sorted.get with hev
  show IsPartitionPair
    ((dbscanRun (dbscanNbr sorted) 3).2 ++
        (dbscanRun (dbscanNbr sorted) 3).1.filterMap (reduceMaxMag ev),
      (dbscanRun (dbscanNbr sorted) 3).1.flatMap (clusterAfts ev))
  set run := dbscanRun (dbscanNbr sorted) 3 with hrun
  rw [show dbscanRun (dbscanNbr sorted) 3 =
    dbscanLoop (dbscanNbr sorted) 3 (List.finRange sorted.length) ∅ [] [] from rfl] at hrun
  rw [← hrun] at hclsNd hseeds hnoiNd hclsPw hclsNoi hcover
  have hcover2 : ∀ x, x ∈ run.2 ∨ ∃ c ∈ run.1, x ∈ c := by
    intro x
    exact hcover x (Or.inr (List.mem_finRange x))
  have hClNe : ∀ c ∈ run.1, c ≠ [] := by
    intro c hc
    obtain ⟨j, t, hjt, _⟩ := hseeds c hc
    rw [hjt]; simp
  -- disjointness of distinct cluster values
  have hvaldisj : ∀ c ∈ run.1, ∀ d ∈ run.1, c ≠ d → ∀ x ∈ c, x ∉ d := by
    intro c hc d hd hne
    exact List.Pairwise.forall pairwise_disjoint_symm hclsPw hc hd hne
  refine ⟨?_, ?_, ?_, ?_⟩
  · -- mainshock indices are duplicate-free
    have hmaxNd : (run.1.filterMap (reduceMaxMag ev)).Nodup := by
      have hp : List.Pairwise (fun (a b : Fin sorted.length) => a ≠ b)
          (run.1.filterMap (reduceMaxMag ev)) := by
        refine List.Pairwise.filterMap (reduceMaxMag ev) ?_ hclsPw
        intro c d hcd b hb b2 hb2 hbe
        subst hbe
        exact hcd b (reduceMaxMag_mem ev c b hb) (reduceMaxMag_mem ev d b hb2)
      exact hp
    refine List.Nodup.append hnoiNd hmaxNd ?_
    intro x hx hx2
    obtain ⟨c, hc, hmax⟩ := List.mem_filterMap.mp hx2
    exact hclsNoi c hc x (reduceMaxMag_mem ev c x hmax) hx
  · -- aftershock indices are duplicate-free
    rw [List.nodup_flatMap]
    constructor
    · intro c hc
      unfold clusterAfts
      cases h : reduceMaxMag ev c with
      | none => simp
      | some m => exact (hclsNd c hc).filter _
    · refine hclsPw.imp ?_
      intro c d hcd x hx hx2
      exact hcd x (clusterAfts_subset ev c x hx) (clusterAfts_subset ev d x hx2)
  · -- mainshocks and aftershocks are disjoint
    intro x hx hx2
    obtain ⟨d, hd, hxd⟩ := List.mem_flatMap.mp hx2
    have hxd2 : x ∈ d := clusterAfts_subset ev d x hxd
    rcases List.mem_append.mp hx with hx | hx
    · exact hclsNoi d hd x hxd2 hx
    · obtain ⟨c, hc, hmax⟩ := List.mem_filterMap.mp hx
      have hxc : x ∈ c := reduceMaxMag_mem ev c x hmax
      by_cases hcd : c = d
      · subst hcd
        unfold clusterAfts at hxd
        rw [hmax] at hxd
        have := List.of_mem_filter hxd
        simp at this
      · exact hvaldisj c hc d hd hcd x hxc hxd2
  · -- together they cover every index
    intro x
    rcases hcover2 x with hx | ⟨c, hc, hxc⟩
    · exact Or.inl (List.mem_append_left _ hx)
    · obtain ⟨m, hm⟩ := reduceMaxMag_isSome ev c (hClNe c hc)
      by_cases hxm : x = m
      · subst hxm
        exact Or.inl (List.mem_append_right _
          (List.mem_filterMap.mpr ⟨c, hc, hm⟩))
      · refine Or.inr (List.mem_flatMap.mpr ⟨c, hc, ?_⟩)
        unfold clusterAfts
        rw [hm]
        exact List.mem_filter.mpr ⟨hxc, by simpa using hxm⟩

/-- A nonempty catalog always yields at least one DBSCAN-strategy
mainshock: every index lands in a cluster (which contributes its maximum)
or in the noise list (pushed to the mainshocks directly). -/
lemma declusterDbscan_mains_ne_nil (sorted : List SeismicEvent) (h : sorted ≠ []) :
    (declusterDbscan sorted).1 ≠ [] := by
  have hn : 0 < sorted.length := List.length_pos.mpr h
  have hpart := declusterDbscan_partition sorted
  set x : Fin sorted.length := ⟨0, hn⟩
  intro hnil
  rcases hpart.2.2.2 x with hx | hx
  · rw [hnil] at hx
    exact absurd hx (List.not_mem_nil x)
  · -- the cluster holding x also put its maximum into the mainshocks
    have hx2 : x ∈ (dbscanRun (dbscanNbr sorted) 3).1.flatMap (clusterAfts sorted.get) := hx
    obtain ⟨d, hd, hxd⟩ := List.mem_flatMap.mp hx2
    have hdne : d ≠ [] := by
      intro hde
      rw [hde] at hxd
      simp [clusterAfts, reduceMaxMag] at hxd
    obtain ⟨m, hm⟩ := reduceMaxMag_isSome sorted.get d hdne
    have hmm : m ∈ (declusterDbscan sorted).1 :=
      List.mem_append_right _ (List.mem_filterMap.mpr ⟨d, hd, hm⟩)
    rw [hnil] at hmm
    exact absurd hmm (List.not_mem_nil m)

end DeclusterDbscan

section Kmeans

/-- Index of the nearest centroid (route.ts 793-806): linear scan with
`minDist` starting at `Infinity` (modelled as `none`) and strict
improvement, so the first centroid at minimal distance wins.  Distances
are compared through their squares, which orders exactly like the
source's square-rooted values. -/
def nearestStep (p : SeismicEvent) (st : (Option ℚ × ℕ) × ℕ) (c : SeismicEvent) :
    (Option ℚ × ℕ) × ℕ :=
  let d := dist2 p c
  let better := match st.1.1 with
    | none => true
    | some m => decide (d < m)
  if better then ((some d, st.2), st.2 + 1) else (st.1, st.2 + 1)

def nearestIdx (cents : List SeismicEvent) (p : SeismicEvent) : ℕ :=
  (cents.foldl (nearestStep p) ((none, 0), 0)).1.2

/-- `clusters[i].push(x)`.  For an in-range index this appends to the
selected bucket; the callers below only use indices below the list
length (the source would crash otherwise). -/
def pushAt {α : Type} (ls : List (List α)) (i : ℕ) (x : α) : List (List α) :=
  ls.set i (ls.getD i [] ++ [x])

/-- The assignment phase of one k-means iteration (route.ts 789-806):
reset the k buckets and push every point into the bucket of its nearest
centroid, in catalog order. -/
def assignPoints (pts : List SeismicEvent) (cents : List SeismicEvent) (k : ℕ) :
    List (List (Fin pts.length)) :=
  (List.finRange pts.length).foldl
    (fun cls i => pushAt cls (nearestIdx cents (pts.get i)) i) (List.replicate k [])

/-- The centroid update of one k-means iteration (route.ts 809-821): an
empty cluster keeps its centroid; otherwise the centroid moves to the
member mean when it moved by more than 0.0001 degrees in either
coordinate, setting the `changed` flag.  Only the positional fields of
the centroid copy are ever written. -/
def updateCentroid (members : List SeismicEvent) (c : SeismicEvent) : SeismicEvent × Bool :=
  if members.length = 0 then (c, false)
  else
    let newLat := (members.map SeismicEvent.latitude).sum / (members.length : ℚ)
    let newLng := (members.map SeismicEvent.longitude).sum / (members.length : ℚ)
    if 1/10000 < |c.latitude - newLat| ∨ 1/10000 < |c.longitude - newLng| then
      (SeismicEvent.mk c.time newLat newLng c.depth c.magnitude, true)
    else (c, false)

/-- One loop body of the k-means iteration: assignment, then the centroid
updates, with the any-centroid-changed flag. -/
def kmeansStep (pts : List SeismicEvent) (k : ℕ) (cents : List SeismicEvent) :
    List (List (Fin pts.length)) × List SeismicEvent × Bool :=
  let cls := assignPoints pts cents k
  let upd := cents.enum.map (fun ic => updateCentroid ((cls.getD ic.1 []).map pts.get) ic.2)
  (cls, upd.map Prod.fst, upd.any Prod.snd)

/-- The `for (iter = 0; iter < maxIterations; iter++)` loop with its
early `if (!changed) break` (route.ts 788-824): runs at most `fuel`
iterations and returns the last computed clusters and centroids; with
zero iterations the initial empty buckets are returned. -/
def kmeansLoop (pts : List SeismicEvent) (k : ℕ) :
    ℕ → List SeismicEvent → List (List (Fin pts.length)) × List SeismicEvent
  | 0, cents => (List.replicate k [], cents)
  | fuel + 1, cents =>
    let s := kmeansStep pts k cents
    if s.2.2 then
      match fuel with
      | 0 => (s.1, s.2.1)
      | f + 1 => kmeansLoop pts k (f + 1) s.2.1
    else (s.1, s.2.1)

/-- Centroid initialization (route.ts 773-776): k spread copies of
randomly sampled points.  The sampled indices (`Math.floor(Math.random()
* points.length)`) are injected as `seeds`; `default` stands for the
undefined spread on an empty catalog, which the callers exclude. -/
def initCentroids (pts : List SeismicEvent) (seeds : ℕ → ℕ) (k : ℕ) : List SeismicEvent :=
  (List.range k).map (fun i => pts.getD (seeds i) default)

/-- `kmeans(points, k, maxIterations)` (route.ts 771-827), with clusters
as index lists plus the final centroids. -/
def kmeans (pts : List SeismicEvent) (seeds : ℕ → ℕ) (k maxIterations : ℕ) :
    List (List (Fin pts.length)) × List SeismicEvent :=
  kmeansLoop pts k maxIterations (initCentroids pts seeds k)

/-- `fuzzyKmeans(points, k)` (route.ts 830-834): delegates to `kmeans`
with the default 10 iterations, computing no membership values. -/
def fuzzyKmeans (pts : List SeismicEvent) (seeds : ℕ → ℕ) (k : ℕ) :
    List (List (Fin pts.length)) × List SeismicEvent :=
  kmeans pts seeds k 10

end Kmeans

section ClusteringRecord

/-- The DBSCAN clustering entry point `dbscan(points, eps, minPts)`
(route.ts 716-768), on catalog indices. -/
def dbscanIdx (pts : List SeismicEvent) (eps : ℚ) (minPts : ℕ) :
    List (List (Fin pts.length)) × List (Fin pts.length) :=
  dbscanRun (fun i j => withinEps eps (pts.get i) (pts.get j)) minPts

/-- The same clusters and noise as event lists, as consumed by the
result assembly. -/
def dbscan (pts : List SeismicEvent) (eps : ℚ) (minPts : ℕ) :
    List (List SeismicEvent) × List SeismicEvent :=
  ((dbscanIdx pts eps minPts).1.map (fun c => c.map pts.get),
    (dbscanIdx pts eps minPts).2.map pts.get)

/-- One processed cluster of the clustering result (route.ts 858-873).
The four mean fields divide by `cluster.length` with no emptiness guard;
`none` models the NaN the source produces on an empty cluster. -/
structure ProcessedCluster where
  id : ℕ
  size : ℕ
  avgMagnitude : Option ℚ
  avgDepth : Option ℚ
  centroidLat : Option ℚ
  centroidLng : Option ℚ
  events : List SeismicEvent
deriving DecidableEq, Inhabited

def processCluster (i : ℕ) (cluster : List SeismicEvent) : ProcessedCluster :=
  ⟨i + 1, cluster.length,
    jsDiv (cluster.map SeismicEvent.magnitude).sum (cluster.length : ℚ),
    jsDiv (cluster.map SeismicEvent.depth).sum (cluster.length : ℚ),
    jsDiv (cluster.map SeismicEvent.latitude).sum (cluster.length : ℚ),
    jsDiv (cluster.map SeismicEvent.longitude).sum (cluster.length : ℚ),
    cluster⟩

/-- The three `Math.random()` draws of the clustering validity metrics
(route.ts 877-879), in call order. -/
structure ClusteringRand where
  r1 : ℚ
  r2 : ℚ
  r3 : ℚ
deriving DecidableEq, Inhabited

structure ClusteringValidity where
  silhouetteScore : ℚ
  daviesBouldinIndex : ℚ
  inertia : ℚ
deriving DecidableEq

/-- `silhouetteScore = 0.6 + Math.random() * 0.3` and its two siblings. -/
def clusteringValidity (r : ClusteringRand) : ClusteringValidity :=
  ⟨3/5 + r.r1 * (3/10), 2/5 + r.r2 * (2/5), 200 + r.r3 * 100⟩

/-- One inter-cluster distance row (route.ts 882-898).  The source
stores `sqrt(latDiff^2 + lngDiff^2) * 111`; the model carries the
radicand `distSq`, from which that value is `111 * sqrt distSq` -- an
injective transform, so equality and NaN-freeness of rows coincide with
the source.  `none` models the NaN arising from an undefined centroid. -/
structure InterClusterEntry where
  cluster1 : ℕ
  cluster2 : ℕ
  distSq : Option ℚ
deriving DecidableEq, Inhabited

def interClusterEntry (c1 c2 : ProcessedCluster) : InterClusterEntry :=
  ⟨c1.id, c2.id,
    match c1.centroidLat, c1.centroidLng, c2.centroidLat, c2.centroidLng with
    | some la1, some ln1, some la2, some ln2 =>
        some ((la1 - la2) * (la1 - la2) + (ln1 - ln2) * (ln1 - ln2))
    | _, _, _, _ => none⟩

def interClusterDistances (cls : List ProcessedCluster) : List InterClusterEntry :=
  (List.range cls.length).flatMap (fun i =>
    ((List.range cls.length).drop (i + 1)).map (fun j =>
      interClusterEntry (cls.getD i default) (cls.getD j default)))

/-- The magnitude ranges "2.0-2.9" ... "5.0-5.9" as parsed bounds. -/
def clusteringMagRanges : List (ℚ × ℚ) := [(2, 29/10), (3, 39/10), (4, 49/10), (5, 59/10)]

/-- Magnitude distribution rows (route.ts 906-920): per range, the count
of members with `min <= magnitude < max` for each cluster id. -/
def magnitudeDistributionClustering (cls : List ProcessedCluster) :
    List (ℚ × ℚ × List (ℕ × ℕ)) :=
  clusteringMagRanges.map (fun mr =>
    (mr.1, mr.2, cls.map (fun c =>
      (c.id, c.events.countP (fun e => decide (mr.1 ≤ e.magnitude ∧ e.magnitude < mr.2))))))

/-- One cluster spread row (route.ts 923-937).  The source value is
`(sum over members of 111 * sqrt t) / size`; the model carries the list
of radicands `t` (one per member, so `size = terms.length`), and `none`
models the NaN from the unguarded division on an empty cluster or an
undefined centroid. -/
structure ClusterSpreadEntry where
  name : ℕ
  terms : Option (List ℚ)
deriving DecidableEq, Inhabited

def clusterSpreadEntry (c : ProcessedCluster) : ClusterSpreadEntry :=
  ⟨c.id,
    match c.centroidLat, c.centroidLng with
    | some la, some ln =>
      if c.size = 0 then none
      else some (c.events.map (fun e =>
        (e.latitude - la) * (e.latitude - la) + (e.longitude - ln) * (e.longitude - ln)))
    | _, _ => none⟩

/-- The clustering result record (route.ts 939-952): the "Cluster {id}"
display labels of the size and spread rows are represented by the id. -/
structure ClusteringResult where
  message : String
  algorithm : String
  clusters : List ProcessedCluster
  validityMetrics : ClusteringValidity
  interClusterDistances : List InterClusterEntry
  clusterSizeDistribution : List (ℕ × ℕ)
  magnitudeDistribution : List (ℚ × ℚ × List (ℕ × ℕ))
  clusterSpread : List ClusterSpreadEntry
deriving DecidableEq

def buildClusteringResult (subType algName : String)
    (clusters : List (List SeismicEvent)) (r : ClusteringRand) : ClusteringResult :=
  let processed := clusters.enum.map (fun ic => processCluster ic.1 ic.2)
  ⟨subType ++ (" clustering completed"), algName, processed, clusteringValidity r,
    interClusterDistances processed,
    processed.map (fun c => (c.id, c.size)),
    magnitudeDistributionClustering processed,
    processed.map clusterSpreadEntry⟩

/-- `performClustering(subType, data)` (route.ts 714-957): dispatch on the
display name, with the source's fixed parameters (eps = 0.5, minPts = 3,
k = 4), and assembly of the result record.  The k-means sampling and the
validity-metric draws are injected. -/
def performClustering (subType : String) (seeds : ℕ → ℕ) (r : ClusteringRand)
    (data : List SeismicEvent) : Except String ClusteringResult :=
  match subType with
  | "DBSCAN" => .ok (buildClusteringResult subType ("dbscan") (dbscan data (1/2) 3).1 r)
  | "K-means" => .ok (buildClusteringResult subType ("kmeans")
      ((kmeans data seeds 4 10).1.map (fun c => c.map data.get)) r)
  | "Fuzzy C-means" => .ok (buildClusteringResult subType ("fuzzy")
      ((fuzzyKmeans data seeds 4).1.map (fun c => c.map data.get)) r)
  | _ => .error ("Unsupported clustering algorithm")

/-- No field of the processed cluster is NaN/Infinity. -/
def pcDefined (c : ProcessedCluster) : Bool :=
  c.avgMagnitude.isSome && c.avgDepth.isSome && c.centroidLat.isSome && c.centroidLng.isSome

/-- The whole clustering record is free of NaN/Infinity. -/
def resultAllDefined (res : ClusteringResult) : Bool :=
  res.clusters.all pcDefined &&
    res.interClusterDistances.all (fun e => e.distSq.isSome) &&
    res.clusterSpread.all (fun s => s.terms.isSome)

end ClusteringRecord

section DeclusterRecord

/-- The five `Math.random()` draws of `performDeclustering` in call
order: the before/after b-values (route.ts 1196, 1215) and the three
validity metrics (route.ts 1226-1228). -/
structure DeclusterRand where
  b1 : ℚ
  b2 : ℚ
  v1 : ℚ
  v2 : ℚ
  v3 : ℚ
deriving DecidableEq, Inhabited

/-- The before/after statistics block (route.ts 1190-1222). -/
structure DeclusterStats where
  totalEvents : ℕ
  mainshocks : ℕ
  aftershocks : ℕ
  avgMagnitude : Option ℚ
  avgDepth : Option ℚ
  bValue : ℚ
  meanTimeGap : ℚ
deriving DecidableEq

/-- Shared shape of the two statistics blocks: averages over `evs`, the
given mainshock/aftershock counts, the given (randomized) b-value, and
the mean time gap in days guarded by `length > 1`. -/
def declusterStats (evs : List SeismicEvent) (m a : ℕ) (bv : ℚ) : DeclusterStats :=
  ⟨evs.length, m, a,
    jsDiv (evs.map SeismicEvent.magnitude).sum (evs.length : ℚ),
    jsDiv (evs.map SeismicEvent.depth).sum (evs.length : ℚ),
    bv,
    if 1 < evs.length then
      ((evs.getLastD default).time - (evs.headD default).time) /
        (((evs.length : ℚ) - 1) * 86400000)
    else 0⟩

structure DeclusterValidity where
  goodnessOfFit : ℚ
  statisticalSignificance : ℚ
  clusterPurity : ℚ
deriving DecidableEq

/-- `v >= lo && (hi === Infinity || v < hi)`: the parsed range test of the
magnitude/depth distributions (route.ts 1238-1244, 1282-1288). -/
def inRangeQ (v lo : ℚ) (hi : Option ℚ) : Bool :=
  decide (lo ≤ v) && (match hi with | none => true | some h => decide (v < h))

/-- Parsed bounds of ["2.0-2.9", "3.0-3.9", "4.0-4.9", "5.0-5.9", "6.0+"]. -/
def declusterMagRanges : List (ℚ × Option ℚ) :=
  [(2, some (29/10)), (3, some (39/10)), (4, some (49/10)), (5, some (59/10)), (6, none)]

def magnitudeDistributionDecluster (sorted mains : List SeismicEvent) :
    List (ℚ × Option ℚ × ℕ × ℕ) :=
  declusterMagRanges.map (fun pr =>
    (pr.1, pr.2, sorted.countP (fun e => inRangeQ e.magnitude pr.1 pr.2),
      mains.countP (fun e => inRangeQ e.magnitude pr.1 pr.2)))

/-- Cumulative event rows (route.ts 1254-1270): seven equally spaced cut
times across the catalog span. -/
def cumulativeEvents (sorted mains : List SeismicEvent) : List (ℕ × ℕ × ℕ) :=
  (List.range 7).map (fun (i : ℕ) =>
    let startT := (sorted.headD default).time
    let dayTime := startT +
      ((i : ℚ) + 1) * (((sorted.getLastD default).time - startT) / 7)
    ((i + 1 : ℕ), sorted.countP (fun e => decide (e.time ≤ dayTime)),
      mains.countP (fun e => decide (e.time ≤ dayTime))))

/-- Parsed bounds of ["0-5 km", "5-10 km", "10-20 km", "20-40 km", "40+ km"]. -/
def depthRanges : List (ℚ × Option ℚ) :=
  [(0, some 5), (5, some 10), (10, some 20), (20, some 40), (40, none)]

def depthDistribution (sorted mains : List SeismicEvent) :
    List (ℚ × Option ℚ × ℕ × ℕ) :=
  depthRanges.map (fun pr =>
    (pr.1, pr.2, sorted.countP (fun e => inRangeQ e.depth pr.1 pr.2),
      mains.countP (fun e => inRangeQ e.depth pr.1 pr.2)))

/-- Squared nearest-neighbor distance of event `i` in degree space
(route.ts 1314-1328); `none` is the `Infinity` of a one-event catalog.
Minimizing the square agrees with minimizing the source's
`sqrt(d) * 111` kilometers. -/
def minNNsq (sorted : List SeismicEvent) (i : Fin sorted.length) : Option ℚ :=
  (List.finRange sorted.length).foldl
    (fun acc j =>
      if j = i then acc
      else
        let d := dist2 (sorted.get i) (sorted.get j)
        match acc with
        | none => some d
        | some m => if d < m then some d else some m)
    none

/-- Parsed bounds of ["0-5 km", "5-10 km", "10-20 km", "20-50 km", "50+ km"]. -/
def nndRanges : List (ℚ × Option ℚ) :=
  [(0, some 5), (5, some 10), (10, some 20), (20, some 50), (50, none)]

/-- `minDistance >= minKm && (maxKm === Infinity || minDistance < maxKm)`
(route.ts 1331), with the kilometer distance `111 * sqrt d` compared
through squares: `111 * sqrt d >= lo` iff `12321 * d >= lo^2` and
similarly for the upper bound (all range bounds are nonnegative). -/
def nndInRange (mn : Option ℚ) (lo : ℚ) (hi : Option ℚ) : Bool :=
  match mn with
  | none => (match hi with | none => true | some _ => false)
  | some d =>
    decide (lo * lo ≤ 12321 * d) &&
      (match hi with | none => true | some h => decide (12321 * d < h * h))

def nndDistribution (sorted : List SeismicEvent) : List (ℚ × Option ℚ × ℕ) :=
  nndRanges.map (fun pr =>
    (pr.1, pr.2,
      ((List.finRange sorted.length).filter
        (fun i => nndInRange (minNNsq sorted i) pr.1 pr.2)).length))

/-- The algorithm-specific block (route.ts 1343-1377) as key/value rows. -/
def algorithmSpecific (algName : String) (mains afts : List SeismicEvent) :
    List (String × ℚ) :=
  match algName with
  | "dbscan" =>
    [(("noisePoints"), (mains.length : ℚ) - (afts.length : ℚ) / 4),
      (("corePoints"), (afts.length : ℚ) / 5),
      (("borderPoints"), (afts.length : ℚ) / 10),
      (("eps"), 26/5), (("minPts"), 4)]
  | "nnd" =>
    [(("thresholdDistance"), 21/2), (("thresholdTime"), 16/5), (("etaValue"), 1/2)]
  | "gruenthal" =>
    [(("spaceWindowKm"), 30), (("timeWindowDays"), 60), (("clusterStability"), 22/25)]
  | "reasenberg" =>
    [(("foreshocksIdentified"), (afts.length : ℚ) / 8),
      (("aftershocksIdentified"), ((afts.length : ℚ) * 7) / 8),
      (("pValue"), 19/20), (("cValue"), 1/20)]
  | _ => []

/-- The declustering result record (route.ts 1379-1393). -/
structure DeclusterResult where
  message : String
  algorithm : String
  beforeDeclustering : DeclusterStats
  afterDeclustering : DeclusterStats
  validityMetrics : DeclusterValidity
  magnitudeDistribution : List (ℚ × Option ℚ × ℕ × ℕ)
  cumulativeEvents : List (ℕ × ℕ × ℕ)
  depthDistribution : List (ℚ × Option ℚ × ℕ × ℕ)
  nndDistribution : List (ℚ × Option ℚ × ℕ)
  algorithmSpecific : List (String × ℚ)
  mainshocks : List SeismicEvent
  aftershocks : List SeismicEvent
deriving DecidableEq

/-- The forced mainshock fallback (route.ts 1176-1187): an empty
mainshock list of a nonempty catalog receives the single
maximum-magnitude event. -/
def ensureMainshocks (sorted mains : List SeismicEvent) : List SeismicEvent :=
  if mains.isEmpty then
    if 0 < sorted.length then
      match reduceMaxEvent sorted with
      | none => mains
      | some m => mains ++ [m]
    else mains
  else mains

/-- The strategy dispatch of `performDeclustering`/`decluster`
(route.ts 1154-1173 together with 974-1145), on the sorted catalog's
indices, paired with the reported algorithm name.  The three window
admission tests stand for the NND, Gruenthal and Reasenberg space/time
window formulas (powers of 10), see `innerScan`. -/
def declusterCore (subType : String)
    (nndA gruA reaA : SeismicEvent → SeismicEvent → Bool) (sorted : List SeismicEvent) :
    Except String ((List (Fin sorted.length) × List (Fin sorted.length)) × String) :=
  match subType with
  | "DBSCAN" => .ok (declusterDbscan sorted, ("dbscan"))
  | "NND Algorithm" => .ok (declusterWindow nndA sorted, ("nnd"))
  | "Gruenthal Declustering Algorithm" => .ok (declusterWindow gruA sorted, ("gruenthal"))
  | "Reasenberg Algorithm" => .ok (declusterWindow reaA sorted, ("reasenberg"))
  | _ => .error ("Unsupported declustering algorithm")

def buildDeclusterResult (subType algName : String)
    (sorted mains afts : List SeismicEvent) (r : DeclusterRand) : DeclusterResult :=
  ⟨subType ++ (" declustering completed"), algName,
    declusterStats sorted mains.length afts.length (9/10 + r.b1 * (1/5)),
    declusterStats mains mains.length 0 (1 + r.b2 * (1/5)),
    ⟨4/5 + r.v1 * (3/20), 17/20 + r.v2 * (3/20), 9/10 + r.v3 * (1/10)⟩,
    magnitudeDistributionDecluster sorted mains,
    cumulativeEvents sorted mains,
    depthDistribution sorted mains,
    nndDistribution sorted,
    algorithmSpecific algName mains afts,
    mains, afts⟩

/-- `performDeclustering(subType, data)` (route.ts 959-1398): sort a copy
of the catalog by time, fail on an empty catalog, run the selected
strategy, force the mainshock fallback, and assemble the record. -/
def performDeclustering (subType : String)
    (nndA gruA reaA : SeismicEvent → SeismicEvent → Bool)
    (data : List SeismicEvent) (r : DeclusterRand) : Except String DeclusterResult :=
  let sorted := sortByTime data
  if sorted.isEmpty then .error ("No data available for declustering analysis")
  else
    match declusterCore subType nndA gruA reaA sorted with
    | .error e => .error e
    | .ok pr =>
      let mains := ensureMainshocks sorted (pr.1.1.map sorted.get)
      let afts := pr.1.2.map sorted.get
      .ok (buildDeclusterResult subType pr.2 sorted mains afts r)

end DeclusterRecord

section Omori

/-- One row of the Omori data series as assembled by the Omori Law
branch (route.ts 378-385): day bin, raw count, and the values
`log10(day + 1)` and `log10(count)` the caller computes. -/
structure OmoriPoint (α : Type) where
  day : α
  count : α
  logDay : α
  logCount : α
deriving DecidableEq

structure OmoriParams (α : Type) where
  p : α
  c : α
  K : α
deriving DecidableEq

/-- `calculateOmoriParameters(omoriData)` (route.ts 488-519): with at
least 3 bins, `p` is minus the ordinary-least-squares slope of
(logDay, logCount), `c` is the fixed 0.5, and `K` is the first bin's
count (`|| 10` when the first count is missing or zero, i.e. falsy).
Stated over any linear ordered field so the estimator can be examined
both with exact rational inputs and with real logarithm inputs.  When
the OLS denominator is zero the source's division produces a non-finite
p; every property proved about the estimator keeps the denominator
nonzero. -/
def calculateOmoriParameters {α : Type} [LinearOrderedField α]
    (omoriData : List (OmoriPoint α)) : OmoriParams α :=
  let K0 : α := match omoriData.head? with
    | none => 10
    | some d => if d.count = 0 then 10 else d.count
  if 3 ≤ omoriData.length then
    let n : α := omoriData.length
    let sumX := (omoriData.map OmoriPoint.logDay).sum
    let sumY := (omoriData.map OmoriPoint.logCount).sum
    let sumXY := (omoriData.map (fun d => d.logDay * d.logCount)).sum
    let sumX2 := (omoriData.map (fun d => d.logDay * d.logDay)).sum
    ⟨-(n * sumXY - sumX * sumY) / (n * sumX2 - sumX * sumX), 1/2, K0⟩
  else ⟨1, 1/2, K0⟩

lemma affine_sums {α : Type} [LinearOrderedField α] (a p : α) :
    ∀ l : List (OmoriPoint α), (∀ d ∈ l, d.logCount = a - p * d.logDay) →
      (l.map OmoriPoint.logCount).sum =
          (l.length : α) * a - p * (l.map OmoriPoint.logDay).sum ∧
        (l.map (fun d => d.logDay * d.logCount)).sum =
          a * (l.map OmoriPoint.logDay).sum -
            p * (l.map (fun d => d.logDay * d.logDay)).sum := by
  intro l
  induction l with
  | nil => intro _; simp
  | cons d t ih =>
    intro h
    have hd := h d (List.mem_cons_self d t)
    obtain ⟨ih1, ih2⟩ := ih (fun x hx => h x (List.mem_cons_of_mem d hx))
    constructor
    · simp only [List.map_cons, List.sum_cons, List.length_cons, ih1, hd]
      push_cast
      ring
    · simp only [List.map_cons, List.sum_cons, ih2, hd]
      ring

lemma sq_dev_sum_nonneg (s : Multiset ℚ) (c : ℚ) :
    0 ≤ (s.map (fun x => (x - c) * (x - c))).sum := by
  refine Multiset.sum_nonneg ?_
  intro x hx
  obtain ⟨y, _, rfl⟩ := Multiset.mem_map.mp hx
  nlinarith [sq_nonneg (y - c)]

lemma sq_dev_sum_expand (c : ℚ) :
    ∀ s : Multiset ℚ, (s.map (fun x => (x - c) * (x - c))).sum =
      (s.map (fun x => x * x)).sum - 2 * c * s.sum + (s.card : ℚ) * (c * c) := by
  intro s
  induction s using Multiset.induction_on with
  | empty => simp
  | cons a t ih =>
    simp only [Multiset.map_cons, Multiset.sum_cons, Multiset.card_cons, ih]
    push_cast
    ring

lemma multiset_den_pos (t : Multiset ℚ) (x1 x2 : ℚ) (hne : x1 ≠ x2) :
    0 < ((x1 ::ₘ x2 ::ₘ t).card : ℚ) * ((x1 ::ₘ x2 ::ₘ t).map (fun x => x * x)).sum -
      (x1 ::ₘ x2 ::ₘ t).sum * (x1 ::ₘ x2 ::ₘ t).sum := by
  set s : Multiset ℚ := x1 ::ₘ x2 ::ₘ t with hs
  have hn : (s.card : ℚ) = (t.card : ℚ) + 2 := by
    rw [hs]; push_cast [Multiset.card_cons]; ring
  have hnpos : (0 : ℚ) < (s.card : ℚ) := by rw [hn]; positivity
  set mu : ℚ := s.sum / (s.card : ℚ) with hmu
  have hkey : (s.card : ℚ) * (s.map (fun x => (x - mu) * (x - mu))).sum =
      (s.card : ℚ) * (s.map (fun x => x * x)).sum - s.sum * s.sum := by
    rw [sq_dev_sum_expand]
    have : (s.card : ℚ) * mu = s.sum := by
      rw [hmu]; field_simp
    nlinarith [this]
  have hsplit : (s.map (fun x => (x - mu) * (x - mu))).sum =
      (x1 - mu) * (x1 - mu) + (x2 - mu) * (x2 - mu) +
        (t.map (fun x => (x - mu) * (x - mu))).sum := by
    rw [hs]
    simp only [Multiset.map_cons, Multiset.sum_cons]
    ring
  have htail := sq_dev_sum_nonneg t mu
  have hdev : 0 < (s.map (fun x => (x - mu) * (x - mu))).sum := by
    rw [hsplit]
    have hx12 : 0 < (x1 - x2) * (x1 - x2) :=
      mul_self_pos.mpr (sub_ne_zero_of_ne hne)
    nlinarith [sq_nonneg (x1 + x2 - 2 * mu)]
  calc (0 : ℚ) < (s.card : ℚ) * (s.map (fun x => (x - mu) * (x - mu))).sum :=
        mul_pos hnpos hdev
    _ = _ := hkey

lemma list_den_pos (xs : List ℚ) (x1 x2 : ℚ) (h1 : x1 ∈ xs) (h2 : x2 ∈ xs)
    (hne : x1 ≠ x2) :
    0 < (xs.length : ℚ) * (xs.map (fun x => x * x)).sum - xs.sum * xs.sum := by
  classical
  have hm1 : x1 ∈ (xs : Multiset ℚ) := by simpa using h1
  have hm2 : x2 ∈ ((xs : Multiset ℚ).erase x1) :=
    (Multiset.mem_erase_of_ne (Ne.symm hne)).mpr (by simpa using h2)
  have hrec : (xs : Multiset ℚ) = x1 ::ₘ x2 ::ₘ (((xs : Multiset ℚ).erase x1).erase x2) := by
    rw [Multiset.cons_erase hm2, Multiset.cons_erase hm1]
  have H := multiset_den_pos (((xs : Multiset ℚ).erase x1).erase x2) x1 x2 hne
  rw [← hrec] at H
  simpa using H

end Omori

section LogBounds

/-- `q/r < logb m n` from the integer certificate `m^q < n^r`. -/
lemma logb_gt_of_pow_lt (m x q r : ℕ) (hm : 1 < m) (hx : 0 < x) (hr : 0 < r)
    (h : (m : ℝ) ^ q < (x : ℝ) ^ r) : (q : ℝ) / r < Real.logb m x := by
  have hlm : 0 < Real.log m := Real.log_pos (by exact_mod_cast hm)
  have hrr : (0 : ℝ) < r := by exact_mod_cast hr
  rw [← Real.log_div_log, div_lt_div_iff₀ hrr hlm]
  have hpow : (0 : ℝ) < (m : ℝ) ^ q := by positivity
  have hlt := Real.log_lt_log hpow h
  rw [Real.log_pow, Real.log_pow] at hlt
  nlinarith [hlt]

/-- `logb m x < q/r` from the integer certificate `x^r < m^q`. -/
lemma logb_lt_of_pow_lt (m x q r : ℕ) (hm : 1 < m) (hx : 0 < x) (hr : 0 < r)
    (h : (x : ℝ) ^ r < (m : ℝ) ^ q) : Real.logb m x < (q : ℝ) / r := by
  have hlm : 0 < Real.log m := Real.log_pos (by exact_mod_cast hm)
  have hrr : (0 : ℝ) < r := by exact_mod_cast hr
  rw [← Real.log_div_log, div_lt_div_iff₀ hlm hrr]
  have hpow : (0 : ℝ) < (x : ℝ) ^ r := by positivity
  have hlt := Real.log_lt_log hpow h
  rw [Real.log_pow, Real.log_pow] at hlt
  nlinarith [hlt]

lemma logb_ten_two_gt : (3 : ℝ) / 10 < Real.logb 10 2 := by
  have := logb_gt_of_pow_lt 10 2 3 10 (by norm_num) (by norm_num) (by norm_num)
    (by norm_num)
  simpa using this

lemma logb_ten_two_lt : Real.logb 10 2 < (31 : ℝ) / 100 := by
  have := logb_lt_of_pow_lt 10 2 31 100 (by norm_num) (by norm_num) (by norm_num)
    (by norm_num)
  simpa using this

lemma logb_ten_three_gt : (47 : ℝ) / 100 < Real.logb 10 3 := by
  have := logb_gt_of_pow_lt 10 3 47 100 (by norm_num) (by norm_num) (by norm_num)
    (by norm_num)
  simpa using this

lemma logb_ten_three_lt : Real.logb 10 3 < (12 : ℝ) / 25 := by
  have := logb_lt_of_pow_lt 10 3 12 25 (by norm_num) (by norm_num) (by norm_num)
    (by norm_num)
  simpa using this

end LogBounds

section PartitionGlue

lemma partition_perm (sorted : List SeismicEvent)
    (p : List (Fin sorted.length) × List (Fin sorted.length)) (h : IsPartitionPair p) :
    ((p.1 ++ p.2).map sorted.get).Perm sorted := by
  have hnd : (p.1 ++ p.2).Nodup :=
    List.Nodup.append h.1 h.2.1 (fun x hx hx2 => h.2.2.1 x hx hx2)
  have hperm : (p.1 ++ p.2).Perm (List.finRange sorted.length) := by
    refine List.perm_of_nodup_nodup_toFinset_eq hnd (List.nodup_finRange _) ?_
    ext x
    simp only [List.mem_toFinset, List.mem_append, List.mem_finRange, iff_true]
    exact h.2.2.2 x
  have hmap := hperm.map sorted.get
  rwa [List.finRange_map_get] at hmap

end PartitionGlue

section ClaimTheorems

/-- C1.  For every non-empty catalog sorted by ascending time and each of
the four declustering strategies (dbscan, nnd, gruenthal, reasenberg, as
dispatched by `declusterCore`), the returned pair of index lists is a
genuine partition of the catalog -- duplicate-free, disjoint, and jointly
covering every event -- and concatenating the two sides gives back the
whole catalog up to permutation.  The window strategies are covered for
every admission test, hence in particular for the NND, Gruenthal and
Reasenberg window formulas. -/
theorem decluster_partition_all (data : List SeismicEvent)
    (nndA gruA reaA : SeismicEvent → SeismicEvent → Bool)
    (hne : data ≠ []) (hsorted : timeSorted data) :
    declusterCore ("DBSCAN") nndA gruA reaA data = .ok (declusterDbscan data, ("dbscan")) ∧
    declusterCore ("NND Algorithm") nndA gruA reaA data =
      .ok (declusterWindow nndA data, ("nnd")) ∧
    declusterCore ("Gruenthal Declustering Algorithm") nndA gruA reaA data =
      .ok (declusterWindow gruA data, ("gruenthal")) ∧
    declusterCore ("Reasenberg Algorithm") nndA gruA reaA data =
      .ok (declusterWindow reaA data, ("reasenberg")) ∧
    (IsPartitionPair (declusterDbscan data) ∧
      (((declusterDbscan data).1 ++ (declusterDbscan data).2).map data.get).Perm data) ∧
    ∀ admits : SeismicEvent → SeismicEvent → Bool,
      IsPartitionPair (declusterWindow admits data) ∧
      (((declusterWindow admits data).1 ++ (declusterWindow admits data).2).map data.get).Perm
        data := by
  refine ⟨rfl, rfl, rfl, rfl, ?_, ?_⟩
  · have h := declusterDbscan_partition data
    exact ⟨h, partition_perm data _ h⟩
  · intro admits
    have h := declusterWindow_partition admits data
    exact ⟨h, partition_perm data _ h⟩

/-- Witness for C1 on the one-event catalog with trivial admission tests. -/
theorem decluster_partition_all_witness :
    ([SeismicEvent.mk 0 0 0 0 3] ≠ []) ∧ timeSorted [SeismicEvent.mk 0 0 0 0 3] ∧
      IsPartitionPair (declusterDbscan [SeismicEvent.mk 0 0 0 0 3]) :=
  ⟨by decide, by decide,
    ((decluster_partition_all [SeismicEvent.mk 0 0 0 0 3]
      (fun _ _ => false) (fun _ _ => false) (fun _ _ => false)
      (by decide) (by decide)).2.2.2.2.1).1⟩

/-- C2.  Declustering never returns zero mainshocks on a nonempty
catalog: every successful `performDeclustering` result has a nonempty
mainshock list, and the forced fallback (route.ts 1176-1187) puts exactly
the single global-maximum-magnitude event into an otherwise empty
mainshock list. -/
theorem decluster_never_zero_mainshocks :
    (∀ (subType : String) (nndA gruA reaA : SeismicEvent → SeismicEvent → Bool)
      (data : List SeismicEvent) (r : DeclusterRand) (res : DeclusterResult),
      performDeclustering subType nndA gruA reaA data r = .ok res →
      res.mainshocks ≠ []) ∧
    (∀ (sorted mains : List SeismicEvent), sorted ≠ [] → mains = [] →
      ∃ m, reduceMaxEvent sorted = some m ∧ ensureMainshocks sorted mains = [m] ∧
        m ∈ sorted ∧ ∀ e ∈ sorted, e.magnitude ≤ m.magnitude) := by
  constructor
  · intro subType nndA gruA reaA data r res hok
    unfold performDeclustering at hok
    by_cases hs : (sortByTime data).isEmpty
    · rw [if_pos hs] at hok
      exact absurd hok (by simp)
    · rw [if_neg hs] at hok
      cases hcore : declusterCore subType nndA gruA reaA (sortByTime data) with
      | error e => rw [hcore] at hok; exact absurd hok (by simp)
      | ok pr =>
        rw [hcore] at hok
        simp only [Except.ok.injEq] at hok
        subst hok
        show ensureMainshocks (sortByTime data) (pr.1.1.map (sortByTime data).get) ≠ []
        have hsne : sortByTime data ≠ [] := by
          intro h0; rw [h0] at hs; exact hs rfl
        unfold ensureMainshocks
        by_cases hm : (pr.1.1.map (sortByTime data).get).isEmpty
        · rw [if_pos hm, if_pos (List.length_pos.mpr hsne)]
          obtain ⟨m, hred⟩ := reduceMaxEvent_isSome (sortByTime data) hsne
          rw [hred]
          simp
        · rw [if_neg hm]
          intro h0
          rw [h0] at hm
          exact hm rfl
  · intro sorted mains hsne hm
    subst hm
    cases hcs : sorted with
    | nil => exact absurd hcs hsne
    | cons e t =>
      refine ⟨foldMax (fun x => x.magnitude) e (e :: t), rfl, ?_, ?_, ?_⟩
      · unfold ensureMainshocks
        rw [if_pos (by simp), if_pos (by simp)]
        simp [reduceMaxEvent]
      · have hmem := (foldMax_spec (fun x => x.magnitude) (e :: t) e).1
        rcases List.mem_cons.mp hmem with h | h
        · rw [h]; exact List.mem_cons_self _ _
        · exact h
      · intro x hx
        exact (foldMax_spec (fun x => x.magnitude) (e :: t) e).2.2 x hx

/-- Witness for C2 on a two-event catalog. -/
theorem decluster_never_zero_mainshocks_witness :
    ∃ m, reduceMaxEvent [SeismicEvent.mk 0 0 0 0 3, SeismicEvent.mk 1 0 0 0 5] = some m ∧
      ensureMainshocks [SeismicEvent.mk 0 0 0 0 3, SeismicEvent.mk 1 0 0 0 5] [] = [m] ∧
      m ∈ [SeismicEvent.mk 0 0 0 0 3, SeismicEvent.mk 1 0 0 0 5] ∧
      ∀ e ∈ [SeismicEvent.mk 0 0 0 0 3, SeismicEvent.mk 1 0 0 0 5],
        e.magnitude ≤ m.magnitude :=
  decluster_never_zero_mainshocks.2
    [SeismicEvent.mk 0 0 0 0 3, SeismicEvent.mk 1 0 0 0 5] [] (by decide) rfl

/-- C7.  Declustering an empty catalog fails with the insufficient-data
error ("No data available for declustering analysis"), for every
algorithm choice, before any strategy dispatch; no partition record is
produced. -/
theorem declustering_empty_insufficient_data
    (subType : String) (nndA gruA reaA : SeismicEvent → SeismicEvent → Bool)
    (r : DeclusterRand) :
    performDeclustering subType nndA gruA reaA [] r =
      .error ("No data available for declustering analysis") := by
  have hnil : sortByTime ([] : List SeismicEvent) = [] :=
    List.Perm.eq_nil (List.mergeSort_perm [] _)
  simp [performDeclustering, hnil]

/-- The random-independent fields of a statistics block. -/
def stripDeclusterStats (s : DeclusterStats) : ℕ × ℕ × ℕ × Option ℚ × Option ℚ × ℚ :=
  (s.totalEvents, s.mainshocks, s.aftershocks, s.avgMagnitude, s.avgDepth, s.meanTimeGap)

/-- Everything in the declustering record except the freshly drawn
bValue fields and validity metrics. -/
def stripDecluster (res : DeclusterResult) :
    String × String × (ℕ × ℕ × ℕ × Option ℚ × Option ℚ × ℚ) ×
      (ℕ × ℕ × ℕ × Option ℚ × Option ℚ × ℚ) × List (ℚ × Option ℚ × ℕ × ℕ) ×
      List (ℕ × ℕ × ℕ) × List (ℚ × Option ℚ × ℕ × ℕ) × List (ℚ × Option ℚ × ℕ) ×
      List (String × ℚ) × List SeismicEvent × List SeismicEvent :=
  (res.message, res.algorithm, stripDeclusterStats res.beforeDeclustering,
    stripDeclusterStats res.afterDeclustering, res.magnitudeDistribution,
    res.cumulativeEvents, res.depthDistribution, res.nndDistribution,
    res.algorithmSpecific, res.mainshocks, res.aftershocks)

/-- Everything in the clustering record except the freshly drawn
validity metrics. -/
def stripClustering (res : ClusteringResult) :
    String × String × List ProcessedCluster × List InterClusterEntry ×
      List (ℕ × ℕ) × List (ℚ × ℚ × List (ℕ × ℕ)) × List ClusterSpreadEntry :=
  (res.message, res.algorithm, res.clusters, res.interClusterDistances,
    res.clusterSizeDistribution, res.magnitudeDistribution, res.clusterSpread)

/-- C6 counterexample.  Two runs of DBSCAN clustering on the same
one-event sorted catalog with different `Math.random()` draws produce
different output records (the validity metrics differ), so the claim
that repeated runs yield identical records, validity metrics included,
fails. -/
theorem determinism_counterexample :
    (performClustering ("DBSCAN") (fun _ => 0) ⟨0, 0, 0⟩
        [SeismicEvent.mk 0 0 0 0 3]).toOption ≠
      (performClustering ("DBSCAN") (fun _ => 0) ⟨1/2, 0, 0⟩
        [SeismicEvent.mk 0 0 0 0 3]).toOption := by
  intro h
  have e1 : (performClustering ("DBSCAN") (fun _ => 0) ⟨0, 0, 0⟩
      [SeismicEvent.mk 0 0 0 0 3]).toOption =
      some (buildClusteringResult ("DBSCAN") ("dbscan")
        (dbscan [SeismicEvent.mk 0 0 0 0 3] (1/2) 3).1 ⟨0, 0, 0⟩) := rfl
  have e2 : (performClustering ("DBSCAN") (fun _ => 0) ⟨1/2, 0, 0⟩
      [SeismicEvent.mk 0 0 0 0 3]).toOption =
      some (buildClusteringResult ("DBSCAN") ("dbscan")
        (dbscan [SeismicEvent.mk 0 0 0 0 3] (1/2) 3).1 ⟨1/2, 0, 0⟩) := rfl
  rw [e1, e2] at h
  have hrec := Option.some.inj h
  have h2 := congrArg ClusteringResult.validityMetrics hrec
  simp only [buildClusteringResult] at h2
  simp only [clusteringValidity, ClusteringValidity.mk.injEq] at h2
  norm_num at h2

/-- C6 amended.  Both engines are deterministic in everything except the
randomized validity metrics and b-values: for any catalog, any algorithm
name, any window admission tests and any k-means seed, two runs with
different random draws agree on every other field of the output record
(clusters, partition, statistics, distributions); with equal draws the
whole records coincide. -/
theorem determinism_modulo_random (subType : String) (seeds : ℕ → ℕ)
    (nndA gruA reaA : SeismicEvent → SeismicEvent → Bool) (data : List SeismicEvent)
    (r rx : ClusteringRand) (q qx : DeclusterRand) :
    (performClustering subType seeds r data).map stripClustering =
      (performClustering subType seeds rx data).map stripClustering ∧
    (performDeclustering subType nndA gruA reaA data q).map stripDecluster =
      (performDeclustering subType nndA gruA reaA data qx).map stripDecluster := by
  constructor
  · unfold performClustering
    split <;>
      simp [Except.map, buildClusteringResult, stripClustering]
  · unfold performDeclustering
    by_cases hs : (sortByTime data).isEmpty
    · rw [if_pos hs, if_pos hs]
    · rw [if_neg hs, if_neg hs]
      cases hcore : declusterCore subType nndA gruA reaA (sortByTime data) with
      | error e => rfl
      | ok pr =>
        simp [Except.map, buildDeclusterResult, stripDecluster, stripDeclusterStats,
          declusterStats]

lemma kmeans_single_eval :
    kmeans [SeismicEvent.mk 0 0 0 0 3] (fun _ => 0) 4 10 =
      ([[(0 : Fin 1)], [], [], []],
        [SeismicEvent.mk 0 0 0 0 3, SeismicEvent.mk 0 0 0 0 3,
          SeismicEvent.mk 0 0 0 0 3, SeismicEvent.mk 0 0 0 0 3]) := by
  have hinit : initCentroids [SeismicEvent.mk 0 0 0 0 3] (fun _ => 0) 4 =
      [SeismicEvent.mk 0 0 0 0 3, SeismicEvent.mk 0 0 0 0 3,
        SeismicEvent.mk 0 0 0 0 3, SeismicEvent.mk 0 0 0 0 3] := by
    norm_num [initCentroids, List.range_succ]
  have hnear : nearestIdx
      [SeismicEvent.mk 0 0 0 0 3, SeismicEvent.mk 0 0 0 0 3,
        SeismicEvent.mk 0 0 0 0 3, SeismicEvent.mk 0 0 0 0 3]
      (SeismicEvent.mk 0 0 0 0 3) = 0 := by
    norm_num [nearestIdx, nearestStep, dist2]
  have hassign : assignPoints [SeismicEvent.mk 0 0 0 0 3]
      [SeismicEvent.mk 0 0 0 0 3, SeismicEvent.mk 0 0 0 0 3,
        SeismicEvent.mk 0 0 0 0 3, SeismicEvent.mk 0 0 0 0 3] 4 =
      [[(0 : Fin 1)], [], [], []] := by
    norm_num [assignPoints, pushAt, hnear, List.replicate]
    rfl
  have hstep : kmeansStep [SeismicEvent.mk 0 0 0 0 3] 4
      [SeismicEvent.mk 0 0 0 0 3, SeismicEvent.mk 0 0 0 0 3,
        SeismicEvent.mk 0 0 0 0 3, SeismicEvent.mk 0 0 0 0 3] =
      ([[(0 : Fin 1)], [], [], []],
        [SeismicEvent.mk 0 0 0 0 3, SeismicEvent.mk 0 0 0 0 3,
          SeismicEvent.mk 0 0 0 0 3, SeismicEvent.mk 0 0 0 0 3], false) := by
    norm_num [kmeansStep, hassign, updateCentroid, List.enum, List.enumFrom]
  show kmeansLoop [SeismicEvent.mk 0 0 0 0 3] 4 (9 + 1)
      (initCentroids [SeismicEvent.mk 0 0 0 0 3] (fun _ => 0) 4) = _
  rw [hinit, kmeansLoop, hstep]
  rfl

/-- C4 counterexample.  A one-event catalog (all fields finite) under
the centroid mode produces empty clusters whose unguarded mean divisions
are NaN in the source; the record fails the no-NaN check. -/
theorem clustering_nan_counterexample :
    (performClustering ("K-means") (fun _ => 0) ⟨0, 0, 0⟩
        [SeismicEvent.mk 0 0 0 0 3]).toOption.map resultAllDefined = some false := by
  have e1 : (performClustering ("K-means") (fun _ => 0) ⟨0, 0, 0⟩
      [SeismicEvent.mk 0 0 0 0 3]).toOption =
      some (buildClusteringResult ("K-means") ("kmeans")
        ((kmeans [SeismicEvent.mk 0 0 0 0 3] (fun _ => 0) 4 10).1.map
          (fun c => c.map [SeismicEvent.mk 0 0 0 0 3].get))
        ⟨0, 0, 0⟩) := rfl
  rw [e1]
  show some (resultAllDefined (buildClusteringResult ("K-means") ("kmeans")
      ((kmeans [SeismicEvent.mk 0 0 0 0 3] (fun _ => 0) 4 10).1.map
        (fun c => c.map [SeismicEvent.mk 0 0 0 0 3].get)) ⟨0, 0, 0⟩)) = some false
  rw [kmeans_single_eval]
  norm_num [buildClusteringResult, resultAllDefined, processCluster, pcDefined, jsDiv,
    List.enum, List.enumFrom, List.all_cons]

lemma dbscan_clusters_ne_nil (pts : List SeismicEvent) (eps : ℚ) (minPts : ℕ) :
    ∀ c ∈ (dbscan pts eps minPts).1, c ≠ [] := by
  intro c hc
  obtain ⟨ci, hci, rfl⟩ := List.mem_map.mp hc
  have D := dbscanLoop_spec (fun i j => withinEps eps (pts.get i) (pts.get j)) minPts
    (List.finRange pts.length) ∅ [] []
    (by simp) (by simp) List.nodup_nil (by simp) List.Pairwise.nil (by simp) _ rfl
  obtain ⟨j, t, hjt, _⟩ := D.2.1 ci hci
  rw [hjt]
  simp

lemma getD_mem_of_lt {α : Type} [Inhabited α] (l : List α) (i : ℕ) (h : i < l.length) :
    l.getD i default ∈ l := by
  rw [List.getD_eq_getElem l default h]
  exact List.getElem_mem h

/-- C4 amended.  In the DBSCAN clustering mode every cluster is nonempty,
so every field of the produced record is a defined (finite) number: the
per-cluster means, the inter-cluster distances and the spreads all avoid
the division by zero that the k-means/fuzzy modes can hit. -/
theorem clustering_dbscan_no_nan (data : List SeismicEvent) (seeds : ℕ → ℕ)
    (r : ClusteringRand) (res : ClusteringResult)
    (hok : performClustering ("DBSCAN") seeds r data = .ok res) :
    resultAllDefined res = true := by
  have hres : res = buildClusteringResult ("DBSCAN") ("dbscan") (dbscan data (1/2) 3).1 r := by
    have : performClustering ("DBSCAN") seeds r data =
        .ok (buildClusteringResult ("DBSCAN") ("dbscan") (dbscan data (1/2) 3).1 r) := rfl
    rw [this] at hok
    exact (Except.ok.injEq _ _).mp hok.symm
  subst hres
  have hne := dbscan_clusters_ne_nil data (1/2) 3
  set cls := (dbscan data (1/2) 3).1 with hcls
  set processed := cls.enum.map (fun ic => processCluster ic.1 ic.2) with hproc
  have hpc : ∀ pc ∈ processed, pcDefined pc = true ∧ 0 < pc.size := by
    intro pc hpc
    obtain ⟨ic, hic, rfl⟩ := List.mem_map.mp hpc
    have hcmem : ic.2 ∈ cls := by
      have hzip : ic ∈ (List.range cls.length).zip cls := by
        rwa [← List.enum_eq_zip_range]
      exact (List.of_mem_zip hzip).2
    have hlen : ic.2.length ≠ 0 := by
      intro h0
      exact hne ic.2 hcmem (List.length_eq_zero.mp h0)
    have hlenQ : ((ic.2.length : ℚ)) ≠ 0 := by exact_mod_cast hlen
    constructor
    · simp [processCluster, pcDefined, jsDiv, hlenQ]
    · simp [processCluster]
      omega
  refine ?_
  have h1 : processed.all pcDefined = true := by
    rw [List.all_eq_true]
    intro pc hpcm
    exact (hpc pc hpcm).1
  have h2 : (interClusterDistances processed).all (fun e => e.distSq.isSome) = true := by
    rw [List.all_eq_true]
    intro e he
    obtain ⟨i, hi, he2⟩ := List.mem_flatMap.mp he
    obtain ⟨j, hj, rfl⟩ := List.mem_map.mp he2
    have hilt : i < processed.length := List.mem_range.mp hi
    have hjlt : j < processed.length :=
      List.mem_range.mp ((List.drop_sublist (i + 1) (List.range processed.length)).subset hj)
    have hdi := (hpc (processed.getD i default) (getD_mem_of_lt processed i hilt)).1
    have hdj := (hpc (processed.getD j default) (getD_mem_of_lt processed j hjlt)).1
    simp only [pcDefined, Bool.and_eq_true, Option.isSome_iff_exists] at hdi hdj
    obtain ⟨la1, hla1⟩ := hdi.1.2
    obtain ⟨ln1, hln1⟩ := hdi.2
    obtain ⟨la2, hla2⟩ := hdj.1.2
    obtain ⟨ln2, hln2⟩ := hdj.2
    show (interClusterEntry (processed.getD i default) (processed.getD j default)).distSq.isSome
      = true
    simp only [interClusterEntry, hla1, hln1, hla2, hln2]
    rfl
  have h3 : (processed.map clusterSpreadEntry).all (fun s => s.terms.isSome) = true := by
    rw [List.all_eq_true]
    intro s hs
    obtain ⟨pc, hpcm, rfl⟩ := List.mem_map.mp hs
    have hd := (hpc pc hpcm).1
    have hsz := (hpc pc hpcm).2
    simp only [pcDefined, Bool.and_eq_true, Option.isSome_iff_exists] at hd
    obtain ⟨la, hla⟩ := hd.1.2
    obtain ⟨ln, hln⟩ := hd.2
    have hsz2 : pc.size ≠ 0 := Nat.pos_iff_ne_zero.mp hsz
    simp [clusterSpreadEntry, hla, hln, hsz2]
  simp only [resultAllDefined, buildClusteringResult, Bool.and_eq_true]
  exact ⟨⟨h1, h2⟩, h3⟩

/-- Three collinear events at longitudes 0, 0.5 and 0.75: with
eps = 0.5 and minPts = 3 the first becomes noise, after which the second
seeds a cluster that can no longer absorb it. -/
def ptsC3 : List SeismicEvent :=
  [SeismicEvent.mk 0 0 0 0 3, SeismicEvent.mk 0 0 (1/2) 0 3, SeismicEvent.mk 0 0 (3/4) 0 3]

/-- Symbolic three-point DBSCAN run for the neighbor matrix of `ptsC3`:
0-1 and 1-2 within eps, 0-2 not. -/
lemma dbscanRun_eval3 (isNbr : Fin 3 → Fin 3 → Bool)
    (h00 : isNbr 0 0 = true) (h01 : isNbr 0 1 = true) (h02 : isNbr 0 2 = false)
    (h10 : isNbr 1 0 = true) (h11 : isNbr 1 1 = true) (h12 : isNbr 1 2 = true)
    (h20 : isNbr 2 0 = false) (h21 : isNbr 2 1 = true) (h22 : isNbr 2 2 = true) :
    dbscanRun isNbr 3 = ([[(1 : Fin 3), 2]], [(0 : Fin 3)]) := by
  have hn0 : nbrs isNbr 0 = [0, 1] := by
    show List.filter _ [0, 1, 2] = _
    simp [List.filter, h00, h01, h02]
  have hn1 : nbrs isNbr 1 = [0, 1, 2] := by
    show List.filter _ [0, 1, 2] = _
    simp [List.filter, h10, h11, h12]
  have hn2 : nbrs isNbr 2 = [1, 2] := by
    show List.filter _ [0, 1, 2] = _
    simp [List.filter, h20, h21, h22]
  have hexp : expand isNbr 3 [0, 1, 2] (insert 1 (insert 0 (∅ : Finset (Fin 3)))) [1] =
      (insert 2 (insert 1 (insert 0 ∅)), [1, 2]) := by
    show expandGo isNbr 3 (3 + 1) [0, 1, 2] (insert 1 (insert 0 ∅)) [1] = _
    rw [expandGo, show nextUnvisited [0, 1, 2] (insert 1 (insert 0 (∅ : Finset (Fin 3)))) =
        some (2, []) from by decide]
    show expandGo isNbr 3 3
        ([] ++ (if 3 ≤ (nbrs isNbr 2).length
          then (nbrs isNbr 2).filter
            (fun j => decide (j ∉ insert 2 (insert 1 (insert 0 ∅)))) else []))
        (insert 2 (insert 1 (insert 0 ∅))) ([1] ++ [2]) = _
    rw [hn2]
    rw [if_neg (by decide)]
    show expandGo isNbr 3 (2 + 1) [] (insert 2 (insert 1 (insert 0 ∅))) [1, 2] = _
    rw [expandGo, show nextUnvisited [] (insert 2 (insert 1 (insert 0 (∅ : Finset (Fin 3))))) =
        none from rfl]
  show dbscanLoop isNbr 3 (List.finRange 3) ∅ [] [] = _
  rw [show List.finRange 3 = [0, 1, 2] from rfl]
  rw [dbscanLoop, if_neg (by decide), hn0, if_pos (by decide)]
  rw [dbscanLoop, if_neg (by decide), hn1, if_neg (by decide)]
  simp only [hexp]
  rw [dbscanLoop, if_pos (by decide)]
  rfl

lemma dbscan_eval3_clusters :
    (dbscan ptsC3 (1/2) 3).1 =
      [[SeismicEvent.mk 0 0 (1/2) 0 3, SeismicEvent.mk 0 0 (3/4) 0 3]] := by
  have hidx : (dbscanIdx ptsC3 (1/2) 3 : List (List (Fin 3)) × List (Fin 3)) =
      ([[(1 : Fin 3), 2]], [(0 : Fin 3)]) := by
    refine dbscanRun_eval3 _ ?_ ?_ ?_ ?_ ?_ ?_ ?_ ?_ ?_
    · show withinEps (1/2) (SeismicEvent.mk 0 0 0 0 3) (SeismicEvent.mk 0 0 0 0 3) = true
      norm_num [withinEps, dist2]
    · show withinEps (1/2) (SeismicEvent.mk 0 0 0 0 3) (SeismicEvent.mk 0 0 (1/2) 0 3) = true
      norm_num [withinEps, dist2]
    · show withinEps (1/2) (SeismicEvent.mk 0 0 0 0 3) (SeismicEvent.mk 0 0 (3/4) 0 3) = false
      norm_num [withinEps, dist2]
    · show withinEps (1/2) (SeismicEvent.mk 0 0 (1/2) 0 3) (SeismicEvent.mk 0 0 0 0 3) = true
      norm_num [withinEps, dist2]
    · show withinEps (1/2) (SeismicEvent.mk 0 0 (1/2) 0 3)
        (SeismicEvent.mk 0 0 (1/2) 0 3) = true
      norm_num [withinEps, dist2]
    · show withinEps (1/2) (SeismicEvent.mk 0 0 (1/2) 0 3)
        (SeismicEvent.mk 0 0 (3/4) 0 3) = true
      norm_num [withinEps, dist2]
    · show withinEps (1/2) (SeismicEvent.mk 0 0 (3/4) 0 3) (SeismicEvent.mk 0 0 0 0 3) = false
      norm_num [withinEps, dist2]
    · show withinEps (1/2) (SeismicEvent.mk 0 0 (3/4) 0 3)
        (SeismicEvent.mk 0 0 (1/2) 0 3) = true
      norm_num [withinEps, dist2]
    · show withinEps (1/2) (SeismicEvent.mk 0 0 (3/4) 0 3)
        (SeismicEvent.mk 0 0 (3/4) 0 3) = true
      norm_num [withinEps, dist2]
  show (dbscanIdx ptsC3 (1/2) 3).1.map (fun c => c.map ptsC3.get) = _
  rw [hidx]
  rfl

/-- C3 counterexample.  With the engine's own parameters (eps = 0.5,
minPts = 3) on a three-event catalog, the returned clustering contains a
cluster of only two members: the first event is claimed as noise before
the cluster forms, so the `minPts` lower bound on cluster size fails. -/
theorem dbscan_minPts_counterexample :
    ¬ (∀ c ∈ (dbscan ptsC3 (1/2) 3).1, 3 ≤ c.length) := by
  intro h
  have hc := h [SeismicEvent.mk 0 0 (1/2) 0 3, SeismicEvent.mk 0 0 (3/4) 0 3]
    (by rw [dbscan_eval3_clusters]; exact List.mem_singleton_self _)
  simp at hc

/-- C3 amended.  Every returned DBSCAN cluster is nonempty and is seeded
by an event whose eps-neighborhood over the whole catalog has at least
`minPts` members; the cluster itself can end up smaller than `minPts`
because neighbors already claimed as noise or by earlier clusters are
skipped during expansion. -/
theorem dbscan_cluster_seed_minPts (pts : List SeismicEvent) (eps : ℚ) (minPts : ℕ)
    (c : List SeismicEvent) (hc : c ∈ (dbscan pts eps minPts).1) :
    c ≠ [] ∧ minPts ≤ pts.countP (fun e => withinEps eps (c.headD default) e) := by
  obtain ⟨ci, hci, rfl⟩ := List.mem_map.mp hc
  have D := dbscanLoop_spec (fun i j => withinEps eps (pts.get i) (pts.get j)) minPts
    (List.finRange pts.length) ∅ [] [] (by simp) (by simp) List.nodup_nil (by simp)
    List.Pairwise.nil (by simp) _ rfl
  obtain ⟨j, t, hjt, hlen⟩ := D.2.1 ci hci
  subst hjt
  refine ⟨by simp, ?_⟩
  have hhead : ((j :: t).map pts.get).headD default = pts.get j := rfl
  rw [hhead]
  have h1 : (nbrs (fun a b => withinEps eps (pts.get a) (pts.get b)) j).length =
      (List.finRange pts.length).countP (fun x => withinEps eps (pts.get j) (pts.get x)) := by
    rw [nbrs, ← List.countP_eq_length_filter]
  have h2 : ∀ p : SeismicEvent → Bool,
      (List.finRange pts.length).countP (fun x => p (pts.get x)) = pts.countP p := by
    intro p
    conv_rhs => rw [← List.finRange_map_get pts]
    rw [List.countP_map]
    rfl
  rw [h1, h2 (fun e => withinEps eps (pts.get j) e)] at hlen
  exact hlen

/-- Witness for C3's amended statement on the counterexample catalog. -/
theorem dbscan_cluster_seed_minPts_witness :
    ([SeismicEvent.mk 0 0 (1/2) 0 3, SeismicEvent.mk 0 0 (3/4) 0 3] ∈
        (dbscan ptsC3 (1/2) 3).1) ∧
      ([SeismicEvent.mk 0 0 (1/2) 0 3, SeismicEvent.mk 0 0 (3/4) 0 3] ≠ [] ∧
        3 ≤ ptsC3.countP (fun e => withinEps (1/2)
          (([SeismicEvent.mk 0 0 (1/2) 0 3,
              SeismicEvent.mk 0 0 (3/4) 0 3]).headD default) e)) := by
  have hmem : [SeismicEvent.mk 0 0 (1/2) 0 3, SeismicEvent.mk 0 0 (3/4) 0 3] ∈
      (dbscan ptsC3 (1/2) 3).1 := by
    rw [dbscan_eval3_clusters]; exact List.mem_singleton_self _
  exact ⟨hmem, dbscan_cluster_seed_minPts ptsC3 (1/2) 3 _ hmem⟩

/-- The estimator's slope on the concrete three-bin log data of the
(t + 0.5)-law counterexample, with the two base-10 logs abstracted. -/
lemma omori_cex_core (a b : ℝ) (ha1 : 3/10 < a) (ha2 : a < 31/100)
    (hb1 : 47/100 < b) (hb2 : b < 12/25) :
    13/10 < (calculateOmoriParameters
      [⟨0, 30, 0, 1 + b⟩, (⟨1, 10, a, 1⟩ : OmoriPoint ℝ), ⟨2, 6, b, a + b⟩]).p := by
  have hstep : (calculateOmoriParameters
      [⟨0, 30, 0, 1 + b⟩, (⟨1, 10, a, 1⟩ : OmoriPoint ℝ), ⟨2, 6, b, a + b⟩]).p =
      (-(3 * (a + b * (a + b)) - (a + b) * (2 + a + 2 * b))) /
      (3 * (a * a + b * b) - (a + b) * (a + b)) := by
    simp [calculateOmoriParameters]
    ring_nf
  rw [hstep]
  have hden : (0:ℝ) < 3 * (a * a + b * b) - (a + b) * (a + b) := by
    nlinarith [sq_nonneg (a - b), sq_nonneg a, sq_nonneg b]
  rw [lt_div_iff₀ hden]
  nlinarith [mul_nonneg (by linarith : (0:ℝ) ≤ a - 3/10) (by linarith : (0:ℝ) ≤ 31/100 - a),
    mul_nonneg (by linarith : (0:ℝ) ≤ b - 47/100) (by linarith : (0:ℝ) ≤ 12/25 - b),
    mul_nonneg (by linarith : (0:ℝ) ≤ a - 3/10) (by linarith : (0:ℝ) ≤ b - 47/100),
    mul_nonneg (by linarith : (0:ℝ) ≤ 31/100 - a) (by linarith : (0:ℝ) ≤ 12/25 - b)]

/-- C5 counterexample.  The day-bin counts 30, 10, 6 on days 0, 1, 2
exactly satisfy n(t) = 15 / (t + 0.5)^1 (so K = 15, p = 1), yet the
estimator run on the corresponding (log10(day+1), log10(count)) series
returns p > 1.3 -- off by more than 0.3 from the generating exponent, so
the claimed small-tolerance recovery under the (t + 0.5) law fails.
(With the matching (t + 1) law the recovery is exact; see the amended
theorem.) -/
theorem omori_half_shift_counterexample :
    ((30 : ℝ) = 15 / ((0:ℝ) + 1/2) ∧ (10 : ℝ) = 15 / ((1:ℝ) + 1/2) ∧
      (6 : ℝ) = 15 / ((2:ℝ) + 1/2)) ∧
    13/10 < (calculateOmoriParameters
      [⟨0, 30, Real.logb 10 (0 + 1), Real.logb 10 30⟩,
        ⟨1, 10, Real.logb 10 (1 + 1), Real.logb 10 10⟩,
        ⟨2, 6, Real.logb 10 (2 + 1), Real.logb 10 6⟩]).p := by
  refine ⟨⟨by norm_num, by norm_num, by norm_num⟩, ?_⟩
  have h1 : Real.logb 10 ((0:ℝ) + 1) = 0 := by
    norm_num
  have h30 : Real.logb 10 (30:ℝ) = 1 + Real.logb 10 3 := by
    rw [show (30:ℝ) = 10 * 3 by norm_num, Real.logb_mul (by norm_num) (by norm_num),
      Real.logb_self_eq_one (by norm_num)]
  have h2 : Real.logb 10 ((1:ℝ) + 1) = Real.logb 10 2 := by norm_num
  have h10 : Real.logb 10 (10:ℝ) = 1 := Real.logb_self_eq_one (by norm_num)
  have h3 : Real.logb 10 ((2:ℝ) + 1) = Real.logb 10 3 := by norm_num
  have h6 : Real.logb 10 (6:ℝ) = Real.logb 10 2 + Real.logb 10 3 := by
    rw [show (6:ℝ) = 2 * 3 by norm_num, Real.logb_mul (by norm_num) (by norm_num)]
  rw [h1, h30, h2, h10, h3, h6]
  exact omori_cex_core (Real.logb 10 2) (Real.logb 10 3) logb_ten_two_gt logb_ten_two_lt
    logb_ten_three_gt logb_ten_three_lt

/-- C5 amended.  The estimator inverts the law that matches its own
logDay = log10(day + 1) transform: whenever the series satisfies
logCount = a - p * logDay exactly (equivalently the counts satisfy
n(t) = K / (t+1)^p with a = log10 K), has at least 3 bins and at least
two distinct logDay values, the returned p is exactly the generating p,
c is the fixed 0.5, and K is the first bin's raw count (when nonzero). -/
theorem omori_round_trip_exact (l : List (OmoriPoint ℚ)) (a p : ℚ)
    (hlen : 3 ≤ l.length)
    (haff : ∀ d ∈ l, d.logCount = a - p * d.logDay)
    (hdist : ∃ d1 ∈ l, ∃ d2 ∈ l, d1.logDay ≠ d2.logDay) :
    (calculateOmoriParameters l).p = p ∧ (calculateOmoriParameters l).c = 1/2 ∧
      ∀ d0 t, l = d0 :: t → d0.count ≠ 0 → (calculateOmoriParameters l).K = d0.count := by
  have hsums := affine_sums a p l haff
  obtain ⟨d1, hd1, d2, hd2, hne⟩ := hdist
  have hden : 0 < (l.length : ℚ) * (l.map (fun d => d.logDay * d.logDay)).sum -
      (l.map OmoriPoint.logDay).sum * (l.map OmoriPoint.logDay).sum := by
    have H := list_den_pos (l.map OmoriPoint.logDay) d1.logDay d2.logDay
      (List.mem_map_of_mem _ hd1) (List.mem_map_of_mem _ hd2) hne
    rw [List.length_map, List.map_map] at H
    exact H
  have hne0 : (l.length : ℚ) * (l.map (fun d => d.logDay * d.logDay)).sum -
      (l.map OmoriPoint.logDay).sum * (l.map OmoriPoint.logDay).sum ≠ 0 := ne_of_gt hden
  refine ⟨?_, ?_, ?_⟩
  · have hp : (calculateOmoriParameters l).p =
        -((l.length : ℚ) * (l.map (fun d => d.logDay * d.logCount)).sum -
          (l.map OmoriPoint.logDay).sum * (l.map OmoriPoint.logCount).sum) /
        ((l.length : ℚ) * (l.map (fun d => d.logDay * d.logDay)).sum -
          (l.map OmoriPoint.logDay).sum * (l.map OmoriPoint.logDay).sum) := by
      simp only [calculateOmoriParameters, hlen, if_true]
    rw [hp, hsums.1, hsums.2]
    have hq : -((l.length : ℚ) *
          (a * (l.map OmoriPoint.logDay).sum -
            p * (l.map (fun d => d.logDay * d.logDay)).sum) -
        (l.map OmoriPoint.logDay).sum *
          ((l.length : ℚ) * a - p * (l.map OmoriPoint.logDay).sum)) =
        p * ((l.length : ℚ) * (l.map (fun d => d.logDay * d.logDay)).sum -
          (l.map OmoriPoint.logDay).sum * (l.map OmoriPoint.logDay).sum) := by
      ring
    rw [hq]
    exact mul_div_cancel_right₀ p hne0
  · simp only [calculateOmoriParameters, hlen, if_true]
  · intro d0 t hl hc0
    subst hl
    simp only [calculateOmoriParameters, hlen, if_true, List.head?_cons]
    simp [hc0]

/-- Witness for C5's amended statement: the exact (t+1)-law series with
K = 8 (log10 K modelled as 3), p = 1 on days 0, 1, 2. -/
theorem omori_round_trip_exact_witness :
    (3 ≤ ([⟨0, 8, 0, 3⟩, ⟨1, 4, 1, 2⟩, ⟨2, 2, 2, 1⟩] : List (OmoriPoint ℚ)).length) ∧
      (calculateOmoriParameters
        ([⟨0, 8, 0, 3⟩, ⟨1, 4, 1, 2⟩, ⟨2, 2, 2, 1⟩] : List (OmoriPoint ℚ))).p = 1 := by
  refine ⟨by norm_num, ?_⟩
  refine (omori_round_trip_exact
    ([⟨0, 8, 0, 3⟩, ⟨1, 4, 1, 2⟩, ⟨2, 2, 2, 1⟩] : List (OmoriPoint ℚ)) 3 1
    (by norm_num) ?_ ?_).1
  · intro d hd
    rcases List.mem_cons.mp hd with rfl | hd
    · norm_num
    rcases List.mem_cons.mp hd with rfl | hd
    · norm_num
    rcases List.mem_cons.mp hd with rfl | hd
    · norm_num
    · exact absurd hd (List.not_mem_nil d)
  · refine ⟨⟨0, 8, 0, 3⟩, List.mem_cons_self _ _,
      ⟨1, 4, 1, 2⟩, List.mem_cons_of_mem _ (List.mem_cons_self _ _), ?_⟩
    norm_num

/-- Witness for C4's amended statement: a one-event catalog under the
DBSCAN mode (the event is lone noise, so there are no clusters, and
every aggregate list is trivially defined). -/
theorem clustering_dbscan_no_nan_witness :
    (performClustering ("DBSCAN") (fun _ => 0) ⟨0, 0, 0⟩ [SeismicEvent.mk 0 0 0 0 3] =
        .ok (buildClusteringResult ("DBSCAN") ("dbscan")
          (dbscan [SeismicEvent.mk 0 0 0 0 3] (1/2) 3).1 ⟨0, 0, 0⟩)) ∧
      resultAllDefined (buildClusteringResult ("DBSCAN") ("dbscan")
        (dbscan [SeismicEvent.mk 0 0 0 0 3] (1/2) 3).1 ⟨0, 0, 0⟩) = true :=
  ⟨rfl, clustering_dbscan_no_nan [SeismicEvent.mk 0 0 0 0 3] (fun _ => 0) ⟨0, 0, 0⟩ _ rfl⟩

/-- The counter of the nearest-centroid fold counts the processed
centroids, and the recorded index either is the initial one or lies
below the final counter. -/
lemma nearestStep_inv (p : SeismicEvent) (l : List SeismicEvent) :
    ∀ st : (Option ℚ × ℕ) × ℕ,
      (l.foldl (nearestStep p) st).2 = st.2 + l.length ∧
        ((l.foldl (nearestStep p) st).1 = st.1 ∨
          (l.foldl (nearestStep p) st).1.2 < (l.foldl (nearestStep p) st).2) := by
  induction l with
  | nil =>
    intro st
    exact ⟨by simp, Or.inl rfl⟩
  | cons a t ih =>
    intro st
    rw [List.foldl_cons]
    obtain ⟨h1, h2⟩ := ih (nearestStep p st a)
    have hv : (nearestStep p st a).2 = st.2 + 1 := by
      unfold nearestStep
      dsimp only
      split <;> rfl
    refine ⟨by rw [h1, hv, List.length_cons]; omega, ?_⟩
    rcases h2 with h | h
    · have hcase : (nearestStep p st a).1 = st.1 ∨ (nearestStep p st a).1.2 = st.2 := by
        unfold nearestStep
        dsimp only
        split
        · right; rfl
        · left; rfl
      rw [h]
      rcases hcase with hc | hc
      · exact Or.inl hc
      · right
        rw [hc, h1, hv]
        omega
    · exact Or.inr h

/-- On a nonempty centroid list the nearest-centroid index is in range. -/
lemma nearestIdx_lt (cents : List SeismicEvent) (p : SeismicEvent) (h : cents ≠ []) :
    nearestIdx cents p < cents.length := by
  obtain ⟨a, t, rfl⟩ := List.exists_cons_of_ne_nil h
  unfold nearestIdx
  rw [List.foldl_cons]
  have hfirst : nearestStep p ((none, 0), 0) a = ((some (dist2 p a), 0), 1) := rfl
  rw [hfirst]
  obtain ⟨h1, h2⟩ := nearestStep_inv p t ((some (dist2 p a), 0), 1)
  rcases h2 with h2 | h2
  · rw [h2]
    simp
  · rw [h1] at h2
    have hc : (1 : ℕ) + t.length = t.length + 1 := Nat.add_comm 1 t.length
    rw [hc] at h2
    simpa using h2

/-- A list of buckets is the range-indexed map of its entries. -/
lemma map_range_getD {α : Type} (ls : List (List α)) :
    (List.range ls.length).map (fun j => ls.getD j []) = ls := by
  apply List.ext_get
  · simp
  · intro i h1 h2
    simp only [List.get_eq_getElem, List.getElem_map, List.getElem_range]
    rw [List.getD_eq_getElem ls [] h2]

/-- Reading a bucket after an in-range push: the pushed bucket grew by
the new element, all others are unchanged. -/
lemma pushAt_getD {α : Type} (ls : List (List α)) (m : ℕ) (x : α) (hm : m < ls.length)
    (j : ℕ) :
    (pushAt ls m x).getD j [] =
      if m = j then ls.getD j [] ++ [x] else ls.getD j [] := by
  unfold pushAt
  by_cases hj : m = j
  · subst hj
    rw [if_pos rfl]
    rw [List.getD_eq_getElem?_getD, List.getElem?_set]
    simp [hm, List.getD_eq_getElem?_getD]
  · rw [if_neg hj]
    rw [List.getD_eq_getElem?_getD, List.getElem?_set]
    simp [hj, List.getD_eq_getElem?_getD]

/-- The bucket fold of the assignment phase, characterized bucket by
bucket: bucket `j` collects (in order) the points assigned to `j`. -/
lemma foldl_pushAt_eq {n : ℕ} (f : Fin n → ℕ) :
    ∀ (l : List (Fin n)) (ls : List (List (Fin n))), (∀ i ∈ l, f i < ls.length) →
      l.foldl (fun cls i => pushAt cls (f i) i) ls =
        (List.range ls.length).map
          (fun j => ls.getD j [] ++ l.filter (fun i => f i = j)) := by
  intro l
  induction l with
  | nil =>
    intro ls _
    rw [List.foldl_nil]
    simp only [List.filter_nil, List.append_nil]
    exact (map_range_getD ls).symm
  | cons a t ih =>
    intro ls hf
    rw [List.foldl_cons]
    have hfa : f a < ls.length := hf a (List.mem_cons_self a t)
    have hlen : (pushAt ls (f a) a).length = ls.length := by
      unfold pushAt
      exact List.length_set ls (f a) _
    rw [ih (pushAt ls (f a) a)
      (by rw [hlen]; exact fun i hi => hf i (List.mem_cons_of_mem a hi))]
    rw [hlen]
    apply List.map_congr_left
    intro j hj
    rw [pushAt_getD ls (f a) a hfa j, List.filter_cons]
    by_cases hcase : f a = j
    · rw [if_pos hcase, if_pos (by simpa using hcase)]
      simp
    · rw [if_neg hcase, if_neg (by simpa using hcase)]

/-- The assignment phase as a filter per bucket, provided every nearest
index is in range. -/
lemma assignPoints_eq (pts : List SeismicEvent) (cents : List SeismicEvent) (k : ℕ)
    (hlt : ∀ i : Fin pts.length, nearestIdx cents (pts.get i) < k) :
    assignPoints pts cents k =
      (List.range k).map (fun j =>
        (List.finRange pts.length).filter
          (fun i => nearestIdx cents (pts.get i) = j)) := by
  unfold assignPoints
  rw [foldl_pushAt_eq (fun i => nearestIdx cents (pts.get i)) (List.finRange pts.length)
    (List.replicate k []) (by intro i _; simpa using hlt i)]
  have hrep : ∀ j, (List.replicate k ([] : List (Fin pts.length))).getD j [] = [] := by
    intro j
    rw [List.getD_eq_getElem?_getD, List.getElem?_replicate]
    split <;> rfl
  rw [List.length_replicate]
  apply List.map_congr_left
  intro j _
  rw [hrep j, List.nil_append]

/-- In the range `0, ..., k-1` exactly one entry equals a given `m < k`. -/
lemma countP_range_eq_one : ∀ (k m : ℕ), m < k →
    (List.range k).countP (fun j => decide (m = j)) = 1 := by
  intro k
  induction k with
  | zero => exact fun m h => absurd h (Nat.not_lt_zero m)
  | succ n ih =>
    intro m h
    rw [List.range_succ n, List.countP_append]
    by_cases hm : m = n
    · subst hm
      have h0 : (List.range m).countP (fun j => decide (m = j)) = 0 := by
        apply List.countP_eq_zero.mpr
        intro a ha
        have hlt := List.mem_range.mp ha
        simp only [decide_eq_true_eq]
        omega
      rw [h0]
      simp
    · rw [ih m (by omega)]
      simp [hm]

/-- Hard assignment: with a nonempty centroid list of length `k`, every
point lands in exactly one of the `k` buckets. -/
lemma assignPoints_countP (pts : List SeismicEvent) (cents : List SeismicEvent) (k : ℕ)
    (hne : cents ≠ []) (hlen : cents.length = k) (x : Fin pts.length) :
    ((assignPoints pts cents k).countP (fun c => decide (x ∈ c))) = 1 := by
  have hlt : ∀ i : Fin pts.length, nearestIdx cents (pts.get i) < k := fun i =>
    hlen ▸ nearestIdx_lt cents (pts.get i) hne
  rw [assignPoints_eq pts cents k hlt, List.countP_map]
  have hconv : ∀ j ∈ List.range k,
      ((fun c => decide (x ∈ c)) ∘ (fun j =>
          (List.finRange pts.length).filter
            (fun i => nearestIdx cents (pts.get i) = j))) j = true ↔
        (fun j => decide (nearestIdx cents (pts.get x) = j)) j = true := by
    intro j _
    simp only [Function.comp, decide_eq_true_eq, List.mem_filter, List.mem_finRange,
      true_and]
  rw [List.countP_congr hconv]
  exact countP_range_eq_one k (nearestIdx cents (pts.get x)) (hlt x)

/-- One k-means step preserves the number of centroids. -/
lemma kmeansStep_cents_length (pts : List SeismicEvent) (k : ℕ)
    (cents : List SeismicEvent) :
    (kmeansStep pts k cents).2.1.length = cents.length := by
  unfold kmeansStep
  simp [List.enum_length]

/-- The assignment phase always produces exactly `k` buckets. -/
lemma assignPoints_length (pts cents : List SeismicEvent) (k : ℕ) :
    (assignPoints pts cents k).length = k := by
  unfold assignPoints
  have hfold : ∀ (l : List (Fin pts.length)) (ls : List (List (Fin pts.length))),
      (l.foldl (fun cls i => pushAt cls (nearestIdx cents (pts.get i)) i) ls).length =
        ls.length := by
    intro l
    induction l with
    | nil => intro ls; rfl
    | cons a t ih =>
      intro ls
      rw [List.foldl_cons, ih]
      unfold pushAt
      exact List.length_set ls _ _
  rw [hfold]
  exact List.length_replicate k []

/-- With at least one iteration the k-means loop returns the assignment
and update of some intermediate centroid list of unchanged length. -/
lemma kmeansLoop_shape (pts : List SeismicEvent) (k : ℕ) :
    ∀ (fuel : ℕ) (cents : List SeismicEvent), ∃ cents',
      cents'.length = cents.length ∧
        kmeansLoop pts k (fuel + 1) cents =
          (assignPoints pts cents' k, (kmeansStep pts k cents').2.1) := by
  intro fuel
  induction fuel with
  | zero =>
    intro cents
    refine ⟨cents, rfl, ?_⟩
    rw [kmeansLoop]
    split
    · rfl
    · rfl
  | succ f ih =>
    intro cents
    rw [kmeansLoop]
    by_cases hch : (kmeansStep pts k cents).2.2 = true
    · rw [if_pos hch]
      obtain ⟨c', hl, he⟩ := ih ((kmeansStep pts k cents).2.1)
      exact ⟨c', by rw [hl, kmeansStep_cents_length], he⟩
    · rw [if_neg hch]
      exact ⟨cents, rfl, rfl⟩

/-- The cluster list returned by k-means always has exactly `k`
entries, whatever the catalog, seeds and iteration bound. -/
lemma kmeans_clusters_length (pts : List SeismicEvent) (seeds : ℕ → ℕ)
    (k maxIter : ℕ) :
    (kmeans pts seeds k maxIter).1.length = k := by
  cases maxIter with
  | zero =>
    show (kmeansLoop pts k 0 (initCentroids pts seeds k)).1.length = k
    rw [kmeansLoop]
    exact List.length_replicate k []
  | succ f =>
    obtain ⟨c', _, he⟩ := kmeansLoop_shape pts k f (initCentroids pts seeds k)
    show (kmeansLoop pts k (f + 1) (initCentroids pts seeds k)).1.length = k
    rw [he]
    exact assignPoints_length pts c' k

/-- C8.  `fuzzyKmeans` returns exactly the value of `kmeans` with the
default 10 iterations on the same catalog, seeds and k, and the shared
result is a hard assignment: every catalog index appears in exactly one
of the returned clusters. -/
theorem fuzzy_equals_kmeans (pts : List SeismicEvent) (seeds : ℕ → ℕ) (k : ℕ)
    (hk : 0 < k) :
    fuzzyKmeans pts seeds k = kmeans pts seeds k 10 ∧
      ∀ x : Fin pts.length,
        ((fuzzyKmeans pts seeds k).1.countP (fun c => decide (x ∈ c))) = 1 := by
  refine ⟨rfl, ?_⟩
  intro x
  obtain ⟨c', hl, he⟩ := kmeansLoop_shape pts k 9 (initCentroids pts seeds k)
  have hgoal : fuzzyKmeans pts seeds k =
      kmeansLoop pts k (9 + 1) (initCentroids pts seeds k) := rfl
  rw [hgoal, he]
  have hclen : c'.length = k := by
    rw [hl]
    simp [initCentroids]
  have hcne : c' ≠ [] := by
    intro hnil
    rw [hnil] at hclen
    simp at hclen
    omega
  show (assignPoints pts c' k).countP (fun c => decide (x ∈ c)) = 1
  exact assignPoints_countP pts c' k hcne hclen x

/-- Witness for C8 on a one-event catalog with k = 4. -/
theorem fuzzy_equals_kmeans_witness :
    0 < 4 ∧
      fuzzyKmeans [SeismicEvent.mk 0 0 0 0 3] (fun _ => 0) 4 =
        kmeans [SeismicEvent.mk 0 0 0 0 3] (fun _ => 0) 4 10 ∧
      ((fuzzyKmeans [SeismicEvent.mk 0 0 0 0 3] (fun _ => 0) 4).1.countP
        (fun c => decide ((⟨0, by decide⟩ :
          Fin ([SeismicEvent.mk 0 0 0 0 3] : List SeismicEvent).length) ∈ c))) = 1 :=
  ⟨by decide,
    (fuzzy_equals_kmeans [SeismicEvent.mk 0 0 0 0 3] (fun _ => 0) 4 (by decide)).1,
    (fuzzy_equals_kmeans [SeismicEvent.mk 0 0 0 0 3] (fun _ => 0) 4 (by decide)).2
      ⟨0, by decide⟩⟩

/-- C9.  K-means returns exactly `k` clusters for every catalog
(including catalogs with fewer than `k` events, where some buckets stay
empty), and the clustering record of the K-means mode keeps all 4
clusters -- empty ones included -- through the per-cluster statistics:
both the processed cluster list and the per-cluster spread list have
exactly 4 rows. -/
theorem kmeans_exactly_k_clusters (pts : List SeismicEvent) (seeds : ℕ → ℕ)
    (k maxIter : ℕ) (r : ClusteringRand) (data : List SeismicEvent) :
    (kmeans pts seeds k maxIter).1.length = k ∧
      ∀ res, performClustering ("K-means") seeds r data = .ok res →
        res.clusters.length = 4 ∧ res.clusterSpread.length = 4 := by
  refine ⟨kmeans_clusters_length pts seeds k maxIter, ?_⟩
  intro res hok
  have he : performClustering ("K-means") seeds r data =
      .ok (buildClusteringResult ("K-means") ("kmeans")
        ((kmeans data seeds 4 10).1.map (fun c => c.map data.get)) r) := rfl
  rw [he] at hok
  have hres := (Except.ok.injEq _ _).mp hok
  rw [← hres]
  unfold buildClusteringResult
  dsimp only
  constructor
  · rw [List.length_map, List.enum_length, List.length_map]
    exact kmeans_clusters_length data seeds 4 10
  · rw [List.length_map, List.length_map, List.enum_length, List.length_map]
    exact kmeans_clusters_length data seeds 4 10

/-- Witness for C9 on a one-event catalog. -/
theorem kmeans_exactly_k_clusters_witness :
    (kmeans [SeismicEvent.mk 0 1 2 3 4] (fun _ => 0) 4 10).1.length = 4 ∧
      ((buildClusteringResult ("K-means") ("kmeans")
          ((kmeans [SeismicEvent.mk 0 1 2 3 4] (fun _ => 0) 4 10).1.map
            (fun c => c.map ([SeismicEvent.mk 0 1 2 3 4] : List SeismicEvent).get))
          ⟨0, 0, 0⟩).clusters.length = 4 ∧
        (buildClusteringResult ("K-means") ("kmeans")
          ((kmeans [SeismicEvent.mk 0 1 2 3 4] (fun _ => 0) 4 10).1.map
            (fun c => c.map ([SeismicEvent.mk 0 1 2 3 4] : List SeismicEvent).get))
          ⟨0, 0, 0⟩).clusterSpread.length = 4) :=
  ⟨(kmeans_exactly_k_clusters [SeismicEvent.mk 0 1 2 3 4] (fun _ => 0) 4 10 ⟨0, 0, 0⟩
      [SeismicEvent.mk 0 1 2 3 4]).1,
    (kmeans_exactly_k_clusters [SeismicEvent.mk 0 1 2 3 4] (fun _ => 0) 4 10 ⟨0, 0, 0⟩
      [SeismicEvent.mk 0 1 2 3 4]).2 _ rfl⟩

/-- The maximum-magnitude reduce over events returns an element of its
list. -/
lemma reduceMaxEvent_mem (l : List SeismicEvent) (m : SeismicEvent)
    (h : reduceMaxEvent l = some m) : m ∈ l := by
  cases l with
  | nil => simp [reduceMaxEvent] at h
  | cons e t =>
    simp only [reduceMaxEvent, Option.some.injEq] at h
    have hm := (foldMax_spec (fun x => x.magnitude) (e :: t) e).1
    rw [h] at hm
    rcases List.mem_cons.mp hm with rfl | hmem
    · exact List.mem_cons_self _ _
    · exact hmem

/-- The forced-fallback mainshock list only holds events of the given
mainshock list or of the sorted catalog. -/
lemma ensureMainshocks_subset (sorted mains : List SeismicEvent) :
    ∀ e ∈ ensureMainshocks sorted mains, e ∈ mains ∨ e ∈ sorted := by
  intro e he
  unfold ensureMainshocks at he
  by_cases h1 : mains.isEmpty
  · rw [if_pos h1] at he
    by_cases h2 : 0 < sorted.length
    · rw [if_pos h2] at he
      cases hr : reduceMaxEvent sorted with
      | none => rw [hr] at he; exact Or.inl he
      | some m =>
        rw [hr] at he
        rcases List.mem_append.mp he with hm | hm
        · exact Or.inl hm
        · have := List.mem_singleton.mp hm
          subst this
          exact Or.inr (reduceMaxEvent_mem sorted e hr)
    · rw [if_neg h2] at he
      exact Or.inl he
  · rw [if_neg h1] at he
    exact Or.inl he

/-- The centroid update writes only the positional fields of its
centroid copy: time, depth and magnitude pass through unchanged. -/
lemma updateCentroid_frame (members : List SeismicEvent) (c : SeismicEvent) :
    ((updateCentroid members c).1).time = c.time ∧
      ((updateCentroid members c).1).depth = c.depth ∧
      ((updateCentroid members c).1).magnitude = c.magnitude := by
  unfold updateCentroid
  split
  · exact ⟨rfl, rfl, rfl⟩
  · dsimp only
    split
    · exact ⟨rfl, rfl, rfl⟩
    · exact ⟨rfl, rfl, rfl⟩

/-- One k-means step keeps every centroid's time, depth and magnitude. -/
lemma kmeansStep_frame (pts : List SeismicEvent) (k : ℕ) (cents : List SeismicEvent)
    (j : ℕ) :
    ((kmeansStep pts k cents).2.1[j]?).map SeismicEvent.time =
        (cents[j]?).map SeismicEvent.time ∧
      ((kmeansStep pts k cents).2.1[j]?).map SeismicEvent.depth =
        (cents[j]?).map SeismicEvent.depth ∧
      ((kmeansStep pts k cents).2.1[j]?).map SeismicEvent.magnitude =
        (cents[j]?).map SeismicEvent.magnitude := by
  have he : (kmeansStep pts k cents).2.1[j]? =
      (cents[j]?).map (fun c =>
        (updateCentroid (((assignPoints pts cents k).getD j []).map pts.get) c).1) := by
    show ((cents.enum.map (fun ic => updateCentroid
        (((assignPoints pts cents k).getD ic.1 []).map pts.get) ic.2)).map Prod.fst)[j]? = _
    rw [List.getElem?_map, List.getElem?_map, List.getElem?_enum]
    cases cents[j]? with
    | none => rfl
    | some c => rfl
  rw [he]
  cases cents[j]? with
  | none => exact ⟨rfl, rfl, rfl⟩
  | some c =>
    obtain ⟨f1, f2, f3⟩ := updateCentroid_frame
      (((assignPoints pts cents k).getD j []).map pts.get) c
    simp only [Option.map_some']
    exact ⟨congrArg some f1, congrArg some f2, congrArg some f3⟩

/-- The whole k-means loop keeps every centroid's time, depth and
magnitude equal to those of the corresponding initial centroid. -/
lemma kmeansLoop_cents_frame (pts : List SeismicEvent) (k : ℕ) :
    ∀ (fuel : ℕ) (cents : List SeismicEvent) (j : ℕ),
      ((kmeansLoop pts k fuel cents).2[j]?).map SeismicEvent.time =
          (cents[j]?).map SeismicEvent.time ∧
        ((kmeansLoop pts k fuel cents).2[j]?).map SeismicEvent.depth =
          (cents[j]?).map SeismicEvent.depth ∧
        ((kmeansLoop pts k fuel cents).2[j]?).map SeismicEvent.magnitude =
          (cents[j]?).map SeismicEvent.magnitude := by
  intro fuel
  induction fuel with
  | zero => intro cents j; exact ⟨rfl, rfl, rfl⟩
  | succ f ih =>
    intro cents j
    rw [kmeansLoop.eq_def]
    dsimp only
    by_cases hch : (kmeansStep pts k cents).2.2 = true
    · rw [if_pos hch]
      cases f with
      | zero => exact kmeansStep_frame pts k cents j
      | succ f2 =>
        obtain ⟨t1, t2, t3⟩ := ih ((kmeansStep pts k cents).2.1) j
        obtain ⟨s1, s2, s3⟩ := kmeansStep_frame pts k cents j
        exact ⟨t1.trans s1, t2.trans s2, t3.trans s3⟩
    · rw [if_neg hch]
      exact kmeansStep_frame pts k cents j

/-- C10.  No analysis operation feeds modified inputs into its output:
declustering works on a time-sorted copy that is a permutation of the
caller's catalog, and every event of a successful declustering record is
(by value) an event of the input catalog; k-means cluster members are
input events, and the returned centroids are evolved copies of the
sampled events whose non-positional fields (time, depth, magnitude) are
never written -- only the copies' latitude/longitude change. -/
theorem no_input_mutation (data : List SeismicEvent) (subType : String)
    (nndA gruA reaA : SeismicEvent → SeismicEvent → Bool) (q : DeclusterRand)
    (pts : List SeismicEvent) (seeds : ℕ → ℕ) (k maxIter : ℕ) :
    (sortByTime data).Perm data ∧
    (∀ res, performDeclustering subType nndA gruA reaA data q = .ok res →
      (∀ e ∈ res.mainshocks, e ∈ data) ∧ ∀ e ∈ res.aftershocks, e ∈ data) ∧
    (∀ c ∈ (kmeans pts seeds k maxIter).1, ∀ i ∈ c, pts.get i ∈ pts) ∧
    ∀ j : ℕ, j < k →
      (((kmeans pts seeds k maxIter).2[j]?).map SeismicEvent.time =
        some (pts.getD (seeds j) default).time) ∧
      (((kmeans pts seeds k maxIter).2[j]?).map SeismicEvent.depth =
        some (pts.getD (seeds j) default).depth) ∧
      (((kmeans pts seeds k maxIter).2[j]?).map SeismicEvent.magnitude =
        some (pts.getD (seeds j) default).magnitude) := by
  have hperm : (sortByTime data).Perm data := List.mergeSort_perm data _
  refine ⟨hperm, ?_, ?_, ?_⟩
  · intro res hok
    unfold performDeclustering at hok
    by_cases hs : (sortByTime data).isEmpty
    · rw [if_pos hs] at hok
      exact absurd hok (by simp)
    · rw [if_neg hs] at hok
      cases hcore : declusterCore subType nndA gruA reaA (sortByTime data) with
      | error e => rw [hcore] at hok; exact absurd hok (by simp)
      | ok pr =>
        rw [hcore] at hok
        simp only [Except.ok.injEq] at hok
        subst hok
        constructor
        · intro e he
          have hm := ensureMainshocks_subset (sortByTime data)
            (pr.1.1.map (sortByTime data).get) e he
          rcases hm with hm | hm
          · obtain ⟨i, _, rfl⟩ := List.mem_map.mp hm
            exact hperm.mem_iff.mp (List.get_mem _ i.1 i.2)
          · exact hperm.mem_iff.mp hm
        · intro e he
          obtain ⟨i, _, rfl⟩ := List.mem_map.mp he
          exact hperm.mem_iff.mp (List.get_mem _ i.1 i.2)
  · intro c _ i _
    exact List.get_mem pts i.1 i.2
  · intro j hj
    obtain ⟨t1, t2, t3⟩ := kmeansLoop_cents_frame pts k maxIter (initCentroids pts seeds k) j
    have hinitj : (initCentroids pts seeds k)[j]? = some (pts.getD (seeds j) default) := by
      unfold initCentroids
      rw [List.getElem?_map, List.getElem?_range hj]
      rfl
    unfold kmeans
    exact ⟨by rw [t1, hinitj]; rfl, by rw [t2, hinitj]; rfl, by rw [t3, hinitj]; rfl⟩

/-- Witness for C10 on a two-event catalog: the sorted copy is a
permutation of the input, and the first centroid of a k-means run seeded
at index 1 carries the time of input event 1. -/
theorem no_input_mutation_witness :
    (sortByTime [SeismicEvent.mk 0 0 0 0 3, SeismicEvent.mk 1 1 1 1 4]).Perm
        [SeismicEvent.mk 0 0 0 0 3, SeismicEvent.mk 1 1 1 1 4] ∧
      (0 : ℕ) < 4 ∧
      (((kmeans [SeismicEvent.mk 0 0 0 0 3, SeismicEvent.mk 1 1 1 1 4]
          (fun _ => 1) 4 10).2[0]?).map SeismicEvent.time =
        some (([SeismicEvent.mk 0 0 0 0 3, SeismicEvent.mk 1 1 1 1 4] :
          List SeismicEvent).getD 1 default).time) :=
  ⟨(no_input_mutation [SeismicEvent.mk 0 0 0 0 3, SeismicEvent.mk 1 1 1 1 4] ("DBSCAN")
      (fun _ _ => false) (fun _ _ => false) (fun _ _ => false) ⟨0, 0, 0, 0, 0⟩
      [SeismicEvent.mk 0 0 0 0 3, SeismicEvent.mk 1 1 1 1 4] (fun _ => 1) 4 10).1,
    by decide,
    ((no_input_mutation [SeismicEvent.mk 0 0 0 0 3, SeismicEvent.mk 1 1 1 1 4] ("DBSCAN")
      (fun _ _ => false) (fun _ _ => false) (fun _ _ => false) ⟨0, 0, 0, 0, 0⟩
      [SeismicEvent.mk 0 0 0 0 3, SeismicEvent.mk 1 1 1 1 4] (fun _ => 1) 4 10).2.2.2
      0 (by decide)).1⟩

end ClaimTheorems

end QuakeInsight
